import Mathlib

/-!
# Verification of the simple-redis RESP codec and command engine

Shallow embedding of the repository `rust-bootcamp-101/02-simple-redis`.

Conventions:
* Rust byte buffers (`BytesMut`, `&[u8]`, `Vec<u8>`) are `List Nat` with each
  element a byte value; byte comparisons in the source (`b'\r'`, `b'\n'`, …)
  become comparisons with the numeric ASCII code.
* Rust `String` payloads are modelled by their UTF-8 byte sequences
  (`List Nat`); `String::from_utf8_lossy` is the identity on the valid UTF-8
  bytes a Rust `String` always contains, so it is modelled as the identity.
* The mutable-buffer decoding style (`decode(buf: &mut BytesMut)`) is
  modelled by functions that return the decoded value together with the
  remaining buffer.
* A Rust panic (out-of-range slice index `&data[n..]` with `n > data.len()`,
  or `advance(n)` past the end of the buffer) is modelled by the distinguished
  result `DResult.panic`.
* Machine-integer overflow (`usize`/`i64` ranges) is not modelled: lengths and
  integers are `Nat`/`Int`.
-/

namespace SimpleRedis

/-- ASCII code of CR. -/
def CR : Nat := 13
/-- ASCII code of LF. -/
def LF : Nat := 10

/-- The two-byte line terminator `\r\n` (`CRLF` in `src/resp/mod.rs`). -/
def CRLF : List Nat := [CR, LF]

/-- `CRLF_LEN` from `src/resp/mod.rs`. -/
def CRLF_LEN : Nat := 2

/-- The `RespError` enum from `src/resp/mod.rs`.  The `String`/payload data
carried by the Rust constructors is only used for messages and is dropped. -/
inductive RespError where
  | invalidFrame
  | invalidFrameType
  | invalidFrameLength
  | notComplete
  | parseIntError
  | parseFloatError
  | internalServerError
  deriving DecidableEq, Repr

/-- Result of running a decoding step: a value, a `RespError`, or a Rust
panic (an out-of-bounds slice or buffer advance aborts the process). -/
inductive DResult (α : Type) where
  | ok : α → DResult α
  | err : RespError → DResult α
  | panic : DResult α
  deriving Repr, DecidableEq

instance : Monad DResult where
  pure := .ok
  bind := fun r f =>
    match r with
    | .ok a => f a
    | .err e => .err e
    | .panic => .panic

/-- Loop body of `find_crlf`: `steps` counts the remaining iterations of the
source's `for i in 1..buf.len() - 1` loop, so the recursion is structural. -/
def findCrlfGo (buf : List Nat) (nth : Nat) : Nat → Nat → Nat → Option Nat
  | 0, _, _ => none
  | steps + 1, count, i =>
    if buf.getD i 0 = CR ∧ buf.getD (i + 1) 0 = LF then
      if count + 1 = nth then some i
      else findCrlfGo buf nth steps (count + 1) (i + 1)
    else findCrlfGo buf nth steps count (i + 1)

/-- `find_crlf(buf, nth)` from `src/resp/mod.rs`: scan indices
`i ∈ [1, buf.len() - 1)` and return the index of the `nth` pair
`buf[i] = '\r', buf[i+1] = '\n'`; the loop runs `buf.len() - 2`
iterations starting at index 1. -/
def findCrlf (buf : List Nat) (nth : Nat) : Option Nat :=
  findCrlfGo buf nth (buf.length - 2) 0 1

/-- `extract_simple_frame_data(buf, prefix)` from `src/resp/mod.rs`
(the `prefix` is always a single byte). -/
def extractSimpleFrameData (buf : List Nat) (pfx : Nat) : Except RespError Nat :=
  if buf.length < 3 then .error .notComplete
  else if buf.head? ≠ some pfx then .error .invalidFrameType
  else match findCrlf buf 1 with
    | none => .error .notComplete
    | some e => .ok e

/-- One decimal digit. -/
def isDigit (b : Nat) : Bool := 48 ≤ b && b ≤ 57

/-- Accumulating decimal parse of a digit string. -/
def digitsVal (l : List Nat) : Nat := l.foldl (fun a b => a * 10 + (b - 48)) 0

/-- Strip one optional leading `+` sign. -/
def stripPlus (l : List Nat) : List Nat :=
  if l.head? = some 43 then l.tail else l

/-- Rust `str::parse::<usize>()`: an optional leading `+`, then one or more
decimal digits (overflow is not modelled). -/
def parseUsize (l : List Nat) : Option Nat :=
  if stripPlus l ≠ [] ∧ (stripPlus l).all isDigit then some (digitsVal (stripPlus l))
  else none

/-- Rust `str::parse::<i64>()`: an optional sign, then one or more decimal
digits (overflow is not modelled). -/
def parseI64 (l : List Nat) : Option Int :=
  if l.head? = some 45 then
    if l.tail ≠ [] ∧ l.tail.all isDigit then some (-(digitsVal l.tail : Int)) else none
  else if stripPlus l ≠ [] ∧ (stripPlus l).all isDigit then
    some (digitsVal (stripPlus l) : Int)
  else none

/-- Structural-fuel digit rendering: `fuel` bounds the digit count and the
instantiation in `renderNat` always suffices. -/
def renderNatGo : Nat → Nat → List Nat
  | 0, _ => []
  | fuel + 1, n =>
    if n < 10 then [48 + n]
    else renderNatGo fuel (n / 10) ++ [48 + n % 10]

/-- Decimal rendering of a natural number (Rust `format!("{}")` on an
unsigned value). -/
def renderNat (n : Nat) : List Nat := renderNatGo (n + 1) n

/-- Decimal rendering of an integer (Rust `format!("{}")` on an `i64`). -/
def renderInt (i : Int) : List Nat :=
  if i < 0 then 45 :: renderNat (-i).toNat else renderNat i.toNat

/-- `parse_length(buf, prefix)` from `src/resp/mod.rs`: locate the first CRLF,
then parse the bytes between the one-byte prefix and the CRLF as a `usize`. -/
def parseLength (buf : List Nat) (pfx : Nat) : Except RespError (Nat × Nat) := do
  let e ← extractSimpleFrameData buf pfx
  match parseUsize ((buf.take e).drop 1) with
  | none => .error .parseIntError
  | some n => .ok (e, n)

/-- `extract_fixed_data(buf, expect, expect_type)` from `src/resp/mod.rs`;
returns the buffer after `advance(expect.len())`. -/
def extractFixedData (buf expect : List Nat) : Except RespError (List Nat) :=
  if buf.length < expect.length then .error .notComplete
  else if expect.isPrefixOf buf then .ok (buf.drop expect.length)
  else .error .invalidFrameType

/-- The `RespFrame` enum.  `frame.rs` is declared in `src/resp/mod.rs` but the
file itself is absent from `src/`; the variant list is taken from the re-exports
in `src/resp/mod.rs` and the `RespFrame::…` constructors used by
`src/respv2/parser.rs`.  `Double(f64)` is modelled by the decimal rendering of
the float (a byte list), since floating-point formatting is outside the
embedding; `Map` is a `BTreeMap<String, RespFrame>`, modelled as a
key-sorted association list. -/
inductive RespFrame where
  | simpleString (s : List Nat)
  | error (s : List Nat)
  | integer (i : Int)
  | bulkString (b : List Nat)
  | null
  | array (l : List RespFrame)
  | boolean (b : Bool)
  | double (d : List Nat)
  | map (ps : List (List Nat × RespFrame))
  | set (l : List RespFrame)

mutual

/-- `RespEncode::encode`, one case per variant, from the per-variant files in
`src/resp/` (`simple_string.rs`, `integer.rs`, `bulk_string.rs`, `array.rs`,
`bool.rs`, `set.rs`).  The files `simple_error.rs`, `null.rs`, `double.rs`
and `map.rs` are absent from `src/`; those cases are modelled from the spec
encoding table (§4.1): `-<text>\r\n`, `_\r\n`, `,<float>\r\n`, and
`%<n>\r\n` followed by `n` pairs of SimpleString-encoded key and encoded
value. -/
def encode : RespFrame → List Nat
  | .simpleString s => 43 :: (s ++ CRLF)
  | .error s => 45 :: (s ++ CRLF)
  | .integer i => 58 :: (renderInt i ++ CRLF)
  | .bulkString b =>
      if b.length = 0 then 36 :: (renderInt (-1) ++ CRLF)
      else 36 :: (renderNat b.length ++ CRLF ++ b ++ CRLF)
  | .null => [95, CR, LF]
  | .array l =>
      if l.length = 0 then 42 :: (renderInt (-1) ++ CRLF)
      else 42 :: (renderNat l.length ++ CRLF ++ encodeList l)
  | .boolean b => [35, if b then 116 else 102, CR, LF]
  | .double d => 44 :: (d ++ CRLF)
  | .map ps => 37 :: (renderNat ps.length ++ CRLF ++ encodePairs ps)
  | .set l => 126 :: (renderNat l.length ++ CRLF ++ encodeList l)

/-- Concatenated encodings of the elements of an aggregate. -/
def encodeList : List RespFrame → List Nat
  | [] => []
  | f :: t => encode f ++ encodeList t

/-- Concatenated encodings of map entries: SimpleString-encoded key then
encoded value. -/
def encodePairs : List (List Nat × RespFrame) → List Nat
  | [] => []
  | (k, v) :: t => (43 :: (k ++ CRLF)) ++ encode v ++ encodePairs t

end

/-- Does the byte list contain the two-byte terminator `\r\n`? -/
def hasCrlf : List Nat → Bool
  | a :: b :: t => (a = CR && b = LF) || hasCrlf (b :: t)
  | _ => false

/-- Strict byte-lexicographic order on byte lists (the order of Rust
`String`/`[u8]` comparison, which underlies `BTreeMap`). -/
def bytesLt : List Nat → List Nat → Bool
  | [], [] => false
  | [], _ :: _ => true
  | _ :: _, [] => false
  | a :: as, b :: bs => if a < b then true else if b < a then false else bytesLt as bs

/-- Map keys strictly increasing in byte-lexicographic order (the `BTreeMap`
iteration invariant, which also gives key uniqueness). -/
def keysSorted : List (List Nat × RespFrame) → Bool
  | (k₁, _) :: (k₂, v₂) :: t => bytesLt k₁ k₂ && keysSorted ((k₂, v₂) :: t)
  | _ => true

mutual

/-- Legality of a frame value, per the spec data-model invariants (§3):
`SimpleString`/`SimpleError` payloads contain no `\r\n`; map keys contain no
`\r\n`, are unique and are in `BTreeMap` (sorted) order; the modelled
`Double` rendering is a nonempty `\r\n`-free byte string. -/
def legal : RespFrame → Bool
  | .simpleString s => !hasCrlf s
  | .error s => !hasCrlf s
  | .integer _ => true
  | .bulkString _ => true
  | .null => true
  | .array l => legalList l
  | .boolean _ => true
  | .double d => !d.isEmpty && !hasCrlf d
  | .map ps => keysSorted ps && legalPairs ps
  | .set l => legalList l

/-- All elements legal. -/
def legalList : List RespFrame → Bool
  | [] => true
  | f :: t => legal f && legalList t

/-- All keys `\r\n`-free and all values legal. -/
def legalPairs : List (List Nat × RespFrame) → Bool
  | [] => true
  | (k, v) :: t => !hasCrlf k && legal v && legalPairs t

end

mutual

/-- No `BulkString`/`Array` anywhere in the frame is empty: the encoder maps
the empty values to the absent sentinels `$-1\r\n` / `*-1\r\n`. -/
def sentinelFree : RespFrame → Bool
  | .bulkString b => !b.isEmpty
  | .array l => !l.isEmpty && sentinelFreeList l
  | .map ps => sentinelFreePairs ps
  | .set l => sentinelFreeList l
  | _ => true

/-- All elements sentinel-free. -/
def sentinelFreeList : List RespFrame → Bool
  | [] => true
  | f :: t => sentinelFree f && sentinelFreeList t

/-- All values sentinel-free. -/
def sentinelFreePairs : List (List Nat × RespFrame) → Bool
  | [] => true
  | (_, v) :: t => sentinelFree v && sentinelFreePairs t

end

mutual

/-- Nesting depth of a frame (used to justify the fuel instantiation of the
recursive decoder). -/
def depth : RespFrame → Nat
  | .array l => 1 + depthList l
  | .set l => 1 + depthList l
  | .map ps => 1 + depthPairs ps
  | _ => 1

/-- Maximal depth over a list of frames. -/
def depthList : List RespFrame → Nat
  | [] => 0
  | f :: t => max (depth f) (depthList t)

/-- Maximal depth over map values. -/
def depthPairs : List (List Nat × RespFrame) → Nat
  | [] => 0
  | (_, v) :: t => max (depth v) (depthPairs t)

end

/-- `SimpleString::decode` from `src/resp/simple_string.rs`: find the CRLF,
split off `end + CRLF_LEN` bytes, and take the text between the prefix and
the CRLF (`from_utf8_lossy` is the identity on the UTF-8 bytes of a Rust
`String`). -/
def simpleStringDecode (buf : List Nat) : Except RespError (RespFrame × List Nat) := do
  let e ← extractSimpleFrameData buf 43
  .ok (.simpleString ((buf.take e).drop 1), buf.drop (e + CRLF_LEN))

/-- `SimpleError::decode`.  `simple_error.rs` is absent from `src/`; modelled
from the spec (§4.1): identical to `SimpleString` with prefix `-`. -/
def simpleErrorDecode (buf : List Nat) : Except RespError (RespFrame × List Nat) := do
  let e ← extractSimpleFrameData buf 45
  .ok (.error ((buf.take e).drop 1), buf.drop (e + CRLF_LEN))

/-- `i64::decode` from `src/resp/integer.rs`. -/
def integerDecode (buf : List Nat) : Except RespError (RespFrame × List Nat) := do
  let e ← extractSimpleFrameData buf 58
  match parseI64 ((buf.take e).drop 1) with
  | none => .error .parseIntError
  | some i => .ok (.integer i, buf.drop (e + CRLF_LEN))

/-- `bool::decode` from `src/resp/bool.rs`: try `#t\r\n`, on any error try
`#f\r\n`. -/
def boolDecode (buf : List Nat) : Except RespError (RespFrame × List Nat) :=
  match extractFixedData buf [35, 116, CR, LF] with
  | .ok rest => .ok (.boolean true, rest)
  | .error _ =>
    match extractFixedData buf [35, 102, CR, LF] with
    | .ok rest => .ok (.boolean false, rest)
    | .error e => .error e

/-- `RespNull::decode`.  `null.rs` is absent from `src/`; modelled from the
spec (§4.1 `_\r\n`) using the `extract_fixed_data` helper of
`src/resp/mod.rs`. -/
def nullDecode (buf : List Nat) : Except RespError (RespFrame × List Nat) := do
  let rest ← extractFixedData buf [95, CR, LF]
  .ok (.null, rest)

/-- `Double::decode`.  `double.rs` is absent from `src/`; modelled from the
spec (§4.1 `,<float>\r\n`): the bytes between `,` and the CRLF are the
rendering of the float, and parsing a rendering returns the value it
renders, so the modelled decode returns the rendered payload itself. -/
def doubleDecode (buf : List Nat) : Except RespError (RespFrame × List Nat) := do
  let e ← extractSimpleFrameData buf 44
  .ok (.double ((buf.take e).drop 1), buf.drop (e + CRLF_LEN))

/-- `BulkString::decode` from `src/resp/bulk_string.rs`.  The `len == 0`
branch advances `end + 2*CRLF_LEN` bytes without checking the buffer length
(`BytesMut::advance` panics past the end) and without checking that the
skipped bytes are a CRLF. -/
def bulkStringDecode (buf : List Nat) : DResult (RespFrame × List Nat) :=
  match parseLength buf 36 with
  | .error e => .err e
  | .ok (e, len) =>
    if len = 0 then
      if e + CRLF_LEN + CRLF_LEN ≤ buf.length then
        .ok (.bulkString [], buf.drop (e + CRLF_LEN + CRLF_LEN))
      else .panic
    else
      let remained := buf.drop (e + CRLF_LEN)
      if remained.length < len + CRLF_LEN then .err .notComplete
      else .ok (.bulkString (remained.take len), remained.drop (len + CRLF_LEN))

/-- `SimpleString::expect_length`. -/
def simpleStringExpectLen (buf : List Nat) : Except RespError Nat := do
  let e ← extractSimpleFrameData buf 43
  .ok (e + CRLF_LEN)

mutual

/-- `RespFrame::expect_length`.  `frame.rs` is absent from `src/`; the
dispatch on the first buffer byte is modelled from the spec (§4.1 prefix
table, "unexpected prefix byte" being a permanent error and an empty buffer
"not complete").  The per-variant arms are the `expect_length` methods of
the files in `src/resp/` (with the absent `simple_error.rs`, `null.rs`,
`double.rs`, `map.rs` modelled from the spec).  The `fuel` argument, the
structural recursion measure, only bounds the recursion depth of the
embedding; the top-level instantiation `buf.length + 1` never runs out, so
the fuel-exhaustion arm is unreachable there. -/
def expectLenF : Nat → List Nat → DResult Nat
  | 0, _ => .err .notComplete
  | fuel + 1, buf =>
    match buf.head? with
    | none => .err .notComplete
    | some b =>
      if b = 43 ∨ b = 45 ∨ b = 58 ∨ b = 44 then
        -- simple string / simple error / integer / double: `end + CRLF_LEN`
        match extractSimpleFrameData buf b with
        | .error e => .err e
        | .ok e => .ok (e + CRLF_LEN)
      else if b = 35 then .ok 4          -- bool::expect_length
      else if b = 95 then .ok 3          -- null frame, fixed three bytes
      else if b = 36 then
        -- BulkString::expect_length: end + CRLF_LEN + len + CRLF_LEN
        match parseLength buf 36 with
        | .error e => .err e
        | .ok (e, len) => .ok (e + CRLF_LEN + len + CRLF_LEN)
      else if b = 42 ∨ b = 126 ∨ b = 37 then
        -- array / set / map: parse_length then calc_total_length
        match parseLength buf b with
        | .error e => .err e
        | .ok (e, len) => calcTotalLength fuel buf e len b
      else .err .invalidFrameType
termination_by structural fuel _ => fuel

/-- `calc_total_length(buf, end, len, prefix)` from `src/resp/mod.rs`:
`total = end + CRLF_LEN`, `data = &buf[total..]`, then for `*`/`~` sum `len`
child frame lengths, for `%` sum `len` (SimpleString key, frame value)
lengths; any other prefix returns `len + CRLF_LEN`. -/
def calcTotalLength : Nat → List Nat → Nat → Nat → Nat → DResult Nat
  | 0, _, _, _, _ => .err .notComplete
  | fuel + 1, buf, e, len, pfx =>
    if pfx = 42 ∨ pfx = 126 then
      calcElemsLoop fuel len (e + CRLF_LEN) (buf.drop (e + CRLF_LEN))
    else if pfx = 37 then
      calcPairsLoop fuel len (e + CRLF_LEN) (buf.drop (e + CRLF_LEN))
    else .ok (len + CRLF_LEN)
termination_by structural fuel _ _ _ _ => fuel

/-- The `*`/`~` loop of `calc_total_length`.  The source advances with
`data = &data[length..]`, which panics when `length > data.len()`. -/
def calcElemsLoop : Nat → Nat → Nat → List Nat → DResult Nat
  | 0, _, _, _ => .err .notComplete
  | _ + 1, 0, total, _ => .ok total
  | fuel + 1, n + 1, total, data =>
    match expectLenF fuel data with
    | .err e => .err e
    | .panic => .panic
    | .ok length =>
      if length ≤ data.length then
        calcElemsLoop fuel n (total + length) (data.drop length)
      else .panic
termination_by structural fuel _ _ _ => fuel

/-- The `%` loop of `calc_total_length`: a SimpleString key length, then a
frame length, with the same panicking slice advance. -/
def calcPairsLoop : Nat → Nat → Nat → List Nat → DResult Nat
  | 0, _, _, _ => .err .notComplete
  | _ + 1, 0, total, _ => .ok total
  | fuel + 1, n + 1, total, data =>
    match simpleStringExpectLen data with
    | .error e => .err e
    | .ok klen =>
      if klen ≤ data.length then
        match expectLenF fuel (data.drop klen) with
        | .err e => .err e
        | .panic => .panic
        | .ok vlen =>
          if vlen ≤ (data.drop klen).length then
            calcPairsLoop fuel n (total + klen + vlen) ((data.drop klen).drop vlen)
          else .panic
      else .panic
termination_by structural fuel _ _ _ => fuel

end

/-- Lift an `Except`-style decode (one that cannot panic) into `DResult`. -/
def liftE {α : Type} : Except RespError α → DResult α
  | .ok a => .ok a
  | .error e => .err e

/-- Insertion into a `BTreeMap<String, RespFrame>` modelled as a key-sorted
association list: insert in byte-lexicographic key order, replacing an
existing entry with the same key. -/
def mapInsert : List (List Nat × RespFrame) → List Nat → RespFrame →
    List (List Nat × RespFrame)
  | [], k, v => [(k, v)]
  | (k', v') :: t, k, v =>
    if bytesLt k k' then (k, v) :: (k', v') :: t
    else if k = k' then (k, v) :: t
    else (k', v') :: mapInsert t k v

mutual

/-- `RespFrame::decode`.  `frame.rs` is absent from `src/`; the dispatch on
the first byte is modelled from the spec (§4.1): an empty buffer is "not
complete", a known prefix dispatches to that variant's `decode`, an unknown
prefix byte is a permanent frame-type error.  `fuel`, the structural
recursion measure, only bounds the recursion depth of the embedding; the
top-level instantiation `buf.length + 1` never runs out, so the
fuel-exhaustion arms are unreachable there. -/
def decodeF : Nat → List Nat → DResult (RespFrame × List Nat)
  | 0, _ => .err .notComplete
  | fuel + 1, buf =>
    match buf.head? with
    | none => .err .notComplete
    | some b =>
      if b = 43 then liftE (simpleStringDecode buf)
      else if b = 45 then liftE (simpleErrorDecode buf)
      else if b = 58 then liftE (integerDecode buf)
      else if b = 35 then liftE (boolDecode buf)
      else if b = 95 then liftE (nullDecode buf)
      else if b = 44 then liftE (doubleDecode buf)
      else if b = 36 then bulkStringDecode buf
      else if b = 42 then arrayDecode fuel buf
      else if b = 126 then setDecode fuel buf
      else if b = 37 then mapDecode fuel buf
      else .err .invalidFrameType
termination_by structural fuel _ => fuel

/-- `RespArray::decode` from `src/resp/array.rs`: `parse_length`, the
empty-length special case (advance `end + 2·CRLF_LEN`, panicking past the
buffer end), `calc_total_length`, the completeness check, then `len`
recursive element decodes. -/
def arrayDecode : Nat → List Nat → DResult (RespFrame × List Nat)
  | 0, _ => .err .notComplete
  | fuel + 1, buf =>
    match parseLength buf 42 with
    | .error e => .err e
    | .ok (e, len) =>
      if len = 0 then
        if e + CRLF_LEN + CRLF_LEN ≤ buf.length then
          .ok (.array [], buf.drop (e + CRLF_LEN + CRLF_LEN))
        else .panic
      else
        match calcTotalLength fuel buf e len 42 with
        | .err er => .err er
        | .panic => .panic
        | .ok total =>
          if buf.length < total then .err .notComplete
          else
            match decodeElems fuel len (buf.drop (e + CRLF_LEN)) with
            | .err er => .err er
            | .panic => .panic
            | .ok (frames, rest) => .ok (.array frames, rest)
termination_by structural fuel _ => fuel

/-- `RespSet::decode` from `src/resp/set.rs` (no empty-length special
case). -/
def setDecode : Nat → List Nat → DResult (RespFrame × List Nat)
  | 0, _ => .err .notComplete
  | fuel + 1, buf =>
    match parseLength buf 126 with
    | .error e => .err e
    | .ok (e, len) =>
      match calcTotalLength fuel buf e len 126 with
      | .err er => .err er
      | .panic => .panic
      | .ok total =>
        if buf.length < total then .err .notComplete
        else
          match decodeElems fuel len (buf.drop (e + CRLF_LEN)) with
          | .err er => .err er
          | .panic => .panic
          | .ok (frames, rest) => .ok (.set frames, rest)
termination_by structural fuel _ => fuel

/-- `RespMap::decode`, modelled from the spec (`map.rs` is absent from
`src/`): parse the pair count, check completeness like the other
aggregates, then read `len` (SimpleString key, frame value) pairs into a
`BTreeMap`. -/
def mapDecode : Nat → List Nat → DResult (RespFrame × List Nat)
  | 0, _ => .err .notComplete
  | fuel + 1, buf =>
    match parseLength buf 37 with
    | .error e => .err e
    | .ok (e, len) =>
      match calcTotalLength fuel buf e len 37 with
      | .err er => .err er
      | .panic => .panic
      | .ok total =>
        if buf.length < total then .err .notComplete
        else
          match decodePairs fuel len [] (buf.drop (e + CRLF_LEN)) with
          | .err er => .err er
          | .panic => .panic
          | .ok (ps, rest) => .ok (.map ps, rest)
termination_by structural fuel _ => fuel

/-- The element loop of `RespArray::decode` / `RespSet::decode`: decode `n`
frames in sequence. -/
def decodeElems : Nat → Nat → List Nat → DResult (List RespFrame × List Nat)
  | 0, _, _ => .err .notComplete
  | _ + 1, 0, buf => .ok ([], buf)
  | fuel + 1, n + 1, buf =>
    match decodeF fuel buf with
    | .err e => .err e
    | .panic => .panic
    | .ok (f, rest) =>
      match decodeElems fuel n rest with
      | .err e => .err e
      | .panic => .panic
      | .ok (fs, rest2) => .ok (f :: fs, rest2)
termination_by structural fuel _ _ => fuel

/-- The pair loop of the modelled map decode: a SimpleString key, then a
frame value, inserted into the `BTreeMap` accumulator. -/
def decodePairs : Nat → Nat → List (List Nat × RespFrame) → List Nat →
    DResult (List (List Nat × RespFrame) × List Nat)
  | 0, _, _, _ => .err .notComplete
  | _ + 1, 0, acc, buf => .ok (acc, buf)
  | fuel + 1, n + 1, acc, buf =>
    match simpleStringDecode buf with
    | .error e => .err e
    | .ok (k, rest) =>
      match decodeF fuel rest with
      | .err e => .err e
      | .panic => .panic
      | .ok (v, rest2) =>
        match k with
        | .simpleString kb => decodePairs fuel n (mapInsert acc kb v) rest2
        | _ => .err .invalidFrame
termination_by structural fuel _ _ _ => fuel
end

/-- `RespFrame::decode` at the canonical fuel: the buffer length bounds the
nesting depth, so this equals the unbounded recursion of the source. -/
def decodeFrame (buf : List Nat) : DResult (RespFrame × List Nat) :=
  decodeF (buf.length + 1) buf

/-- `RespFrame::expect_length` at the canonical fuel. -/
def expectLength (buf : List Nat) : DResult Nat :=
  expectLenF (buf.length + 1) buf

/-- ASCII bytes of a Lean string; for the ASCII strings appearing in the
claims this equals the UTF-8 byte sequence of the Rust string. -/
def asciiBytes (s : String) : List Nat := s.data.map Char.toNat

/-! ### Properties of digit rendering and parsing -/

theorem renderNatGo_digits (fuel : Nat) :
    ∀ n, n < fuel → ∀ x ∈ renderNatGo fuel n, isDigit x = true := by
  induction fuel with
  | zero => intro n h; omega
  | succ fuel ih =>
    intro n _ x hx
    rw [renderNatGo] at hx
    by_cases h10 : n < 10
    · rw [if_pos h10] at hx
      simp only [List.mem_singleton] at hx
      subst hx; simp [isDigit]; omega
    · rw [if_neg h10] at hx
      rcases List.mem_append.1 hx with h | h
      · exact ih (n / 10) (by have := Nat.div_lt_self (by omega : 0 < n) (by omega : 1 < 10); omega) x h
      · simp only [List.mem_singleton] at h
        subst h; simp [isDigit]; omega

theorem renderNatGo_ne_nil (fuel n : Nat) (h : n < fuel) : renderNatGo fuel n ≠ [] := by
  cases fuel with
  | zero => omega
  | succ fuel =>
    rw [renderNatGo]
    by_cases h10 : n < 10
    · simp [h10]
    · simp [h10]

theorem renderNatGo_foldl (fuel : Nat) :
    ∀ n acc, n < fuel →
      (renderNatGo fuel n).foldl (fun a b => a * 10 + (b - 48)) acc =
        acc * 10 ^ (renderNatGo fuel n).length + n := by
  induction fuel with
  | zero => intro n acc h; omega
  | succ fuel ih =>
    intro n acc _
    rw [renderNatGo]
    by_cases h10 : n < 10
    · simp only [if_pos h10, List.foldl_cons, List.foldl_nil, List.length_singleton]
      omega
    · have hlt : n / 10 < fuel := by
        have := Nat.div_lt_self (by omega : 0 < n) (by omega : 1 < 10); omega
      simp only [if_neg h10, List.foldl_append, List.foldl_cons, List.foldl_nil,
        List.length_append, List.length_singleton]
      rw [ih (n / 10) acc hlt]
      have hmod : 48 + n % 10 - 48 = n % 10 := by omega
      rw [hmod, pow_succ]
      have hstep : (acc * 10 ^ (renderNatGo fuel (n / 10)).length + n / 10) * 10 + n % 10
          = acc * (10 ^ (renderNatGo fuel (n / 10)).length * 10) + (n / 10 * 10 + n % 10) := by
        ring
      rw [hstep]
      congr 1
      omega

theorem digitsVal_renderNat (n : Nat) : digitsVal (renderNat n) = n := by
  have := renderNatGo_foldl (n + 1) n 0 (by omega)
  simpa [digitsVal, renderNat] using this

theorem renderNat_digits (n : Nat) : ∀ x ∈ renderNat n, isDigit x = true :=
  renderNatGo_digits (n + 1) n (by omega)

theorem renderNat_ne_nil (n : Nat) : renderNat n ≠ [] :=
  renderNatGo_ne_nil (n + 1) n (by omega)

theorem renderNat_head_digit (n : Nat) :
    ∃ c t, renderNat n = c :: t ∧ isDigit c = true := by
  cases h : renderNat n with
  | nil => exact absurd h (renderNat_ne_nil n)
  | cons c t =>
    exact ⟨c, t, rfl, renderNat_digits n c (by rw [h]; exact List.mem_cons_self c t)⟩

theorem stripPlus_of_head_ne (l : List Nat) (h : l.head? ≠ some 43) :
    stripPlus l = l := by
  rw [stripPlus, if_neg h]

theorem renderNat_all_digits (n : Nat) : (renderNat n).all isDigit = true :=
  List.all_eq_true.2 (fun x hx => renderNat_digits n x hx)

theorem renderNat_head_ne (n b : Nat) (hb : isDigit b = false) :
    (renderNat n).head? ≠ some b := by
  obtain ⟨c, t, hct, hc⟩ := renderNat_head_digit n
  rw [hct]
  simp only [List.head?_cons, ne_eq, Option.some.injEq]
  intro hcb
  rw [hcb] at hc
  rw [hc] at hb
  cases hb

theorem parseUsize_renderNat (n : Nat) : parseUsize (renderNat n) = some n := by
  rw [parseUsize,
    stripPlus_of_head_ne _ (renderNat_head_ne n 43 (by simp [isDigit]))]
  rw [if_pos ⟨renderNat_ne_nil n, renderNat_all_digits n⟩, digitsVal_renderNat]

theorem parseI64_renderInt (i : Int) : parseI64 (renderInt i) = some i := by
  rw [renderInt]
  by_cases hneg : i < 0
  · rw [if_pos hneg, parseI64]
    rw [if_pos (show (45 :: renderNat (-i).toNat).head? = some 45 from rfl)]
    simp only [List.tail_cons]
    rw [if_pos ⟨renderNat_ne_nil _, renderNat_all_digits (-i).toNat⟩]
    rw [digitsVal_renderNat]
    rw [Int.toNat_of_nonneg (by omega : (0 : Int) ≤ -i)]
    congr 1
    omega
  · rw [if_neg hneg, parseI64]
    rw [if_neg (renderNat_head_ne i.toNat 45 (by simp [isDigit]))]
    rw [stripPlus_of_head_ne _ (renderNat_head_ne i.toNat 43 (by simp [isDigit]))]
    rw [if_pos ⟨renderNat_ne_nil _, renderNat_all_digits i.toNat⟩]
    rw [digitsVal_renderNat]
    rw [Int.toNat_of_nonneg (by omega : (0 : Int) ≤ i)]

/-! ### CRLF-freeness -/

theorem hasCrlf_of_no_cr : ∀ l : List Nat, (∀ x ∈ l, x ≠ CR) → hasCrlf l = false := by
  intro l h
  induction l with
  | nil => rfl
  | cons a t ih =>
    cases t with
    | nil => rfl
    | cons b t' =>
      rw [hasCrlf]
      have ha : a ≠ CR := h a (by simp)
      simp only [Bool.or_eq_false_iff]
      exact ⟨by simp [CR] at ha ⊢; omega,
        ih (fun x hx => h x (List.mem_cons_of_mem a hx))⟩

theorem renderNat_no_crlf (n : Nat) : hasCrlf (renderNat n) = false :=
  hasCrlf_of_no_cr _ (fun x hx => by
    have := renderNat_digits n x hx; simp [isDigit] at this; simp [CR]; omega)

theorem renderInt_no_crlf (i : Int) : hasCrlf (renderInt i) = false := by
  rw [renderInt]
  by_cases hneg : i < 0
  · rw [if_pos hneg]
    apply hasCrlf_of_no_cr
    intro x hx
    rcases List.mem_cons.1 hx with h | h
    · subst h; simp [CR]
    · have := renderNat_digits (-i).toNat x h; simp [isDigit] at this; simp [CR]; omega
  · rw [if_neg hneg]; exact renderNat_no_crlf _

/-! ### Locating the frame terminator -/

theorem getD_drop_zero (buf : List Nat) (i j : Nat) :
    (buf.drop i).getD j 0 = buf.getD (i + j) 0 := by
  rw [List.getD_eq_getElem?_getD, List.getD_eq_getElem?_getD, List.getElem?_drop]

theorem findCrlfGo_found (buf : List Nat) :
    ∀ (s : List Nat) (i steps rest : _), buf.drop i = s ++ CR :: LF :: rest →
      hasCrlf s = false → s.length + 1 ≤ steps →
      findCrlfGo buf 1 steps 0 i = some (i + s.length) := by
  intro s
  induction s with
  | nil =>
    intro i steps rest hdrop _ hsteps
    obtain ⟨steps', rfl⟩ : ∃ k, steps = k + 1 := ⟨steps - 1, by omega⟩
    rw [findCrlfGo]
    have h0 : buf.getD i 0 = CR := by
      have := getD_drop_zero buf i 0
      rw [hdrop] at this
      simpa using this.symm
    have h1 : buf.getD (i + 1) 0 = LF := by
      have := getD_drop_zero buf i 1
      rw [hdrop] at this
      simpa using this.symm
    rw [if_pos ⟨h0, h1⟩, if_pos rfl]
    simp
  | cons a s' ih =>
    intro i steps rest hdrop hcrlf hsteps
    obtain ⟨steps', rfl⟩ : ∃ k, steps = k + 1 := ⟨steps - 1, by omega⟩
    have hdrop' : buf.drop (i + 1) = s' ++ CR :: LF :: rest := by
      have ht : (buf.drop i).tail = buf.drop (i + 1) := List.tail_drop buf i
      rw [← ht, hdrop]
      rfl
    have hgi : buf.getD i 0 = a := by
      have := getD_drop_zero buf i 0
      rw [hdrop] at this
      simpa using this.symm
    have hnopair : ¬(buf.getD i 0 = CR ∧ buf.getD (i + 1) 0 = LF) := by
      rintro ⟨hc, hl⟩
      have hg1 := getD_drop_zero buf (i + 1) 0
      rw [hdrop'] at hg1
      simp only [Nat.add_zero] at hg1
      rw [← hg1] at hl
      cases s' with
      | nil => simp [CR, LF] at hl
      | cons b t' =>
        rw [hasCrlf] at hcrlf
        simp only [Bool.or_eq_false_iff] at hcrlf
        have hhead := hcrlf.1
        rw [hgi] at hc
        subst hc
        simp only [List.cons_append, List.getD_cons_zero] at hl
        subst hl
        simp at hhead
    rw [findCrlfGo, if_neg hnopair]
    have hcrlf' : hasCrlf s' = false := by
      cases s' with
      | nil => rfl
      | cons b t' =>
        rw [hasCrlf] at hcrlf
        simp only [Bool.or_eq_false_iff] at hcrlf
        exact hcrlf.2
    rw [ih (i + 1) steps' rest hdrop' hcrlf' (by simp at hsteps; omega)]
    congr 1
    simp
    omega

/-- `extract_simple_frame_data` on a well-formed header: the payload contains
no CRLF, so the first CRLF found is the terminator. -/
theorem extractSimple_ok (pfx : Nat) (s rest : List Nat) (h : hasCrlf s = false) :
    extractSimpleFrameData (pfx :: (s ++ CR :: LF :: rest)) pfx =
      .ok (s.length + 1) := by
  rw [extractSimpleFrameData]
  rw [if_neg (by simp; omega)]
  rw [if_neg (by simp)]
  have hfind : findCrlf (pfx :: (s ++ CR :: LF :: rest)) 1 = some (s.length + 1) := by
    rw [findCrlf]
    have := findCrlfGo_found (pfx :: (s ++ CR :: LF :: rest)) s 1
      ((pfx :: (s ++ CR :: LF :: rest)).length - 2) rest (by rfl) h
      (by simp only [List.length_cons, List.length_append]; omega)
    rw [this]
    congr 1
    omega
  rw [hfind]

/-- The slice `&buf[1..end]` of a well-formed header is the payload. -/
theorem header_take (pfx : Nat) (s r : List Nat) :
    (((pfx :: (s ++ r)).take (s.length + 1)).drop 1) = s := by
  simp [List.take_append_of_le_length]

/-- Consuming `end + CRLF_LEN` bytes of a well-formed header leaves the rest. -/
theorem header_drop (pfx : Nat) (s rest : List Nat) :
    (pfx :: (s ++ CR :: LF :: rest)).drop (s.length + 1 + CRLF_LEN) = rest := by
  have : (pfx :: (s ++ CR :: LF :: rest)).drop (s.length + 1 + CRLF_LEN) =
      (s ++ CR :: LF :: rest).drop (s.length + 2) := by
    rw [show s.length + 1 + CRLF_LEN = (s.length + 2) + 1 by rfl]
    rfl
  rw [this, List.drop_append_eq_append_drop]
  simp

/-- `parse_length` on a well-formed length header. -/
theorem parseLength_header (pfx n : Nat) (rest : List Nat) :
    parseLength (pfx :: (renderNat n ++ CR :: LF :: rest)) pfx =
      .ok ((renderNat n).length + 1, n) := by
  rw [parseLength]
  rw [extractSimple_ok pfx (renderNat n) rest (renderNat_no_crlf n)]
  show (match parseUsize ((((pfx :: (renderNat n ++ CR :: LF :: rest))).take
    ((renderNat n).length + 1)).drop 1) with
    | none => (.error .parseIntError : Except RespError (Nat × Nat))
    | some m => .ok ((renderNat n).length + 1, m)) = .ok ((renderNat n).length + 1, n)
  rw [show (renderNat n) ++ CR :: LF :: rest = (renderNat n) ++ (CR :: LF :: rest) from rfl,
    header_take pfx (renderNat n) (CR :: LF :: rest), parseUsize_renderNat n]

/-! ### Structural size of frames, for the round-trip induction -/

mutual

/-- Number of nodes of a frame (strong-induction measure). -/
def fsize : RespFrame → Nat
  | .array l => 1 + fsizeList l
  | .set l => 1 + fsizeList l
  | .map ps => 1 + fsizePairs ps
  | _ => 1

/-- Total size of a list of frames. -/
def fsizeList : List RespFrame → Nat
  | [] => 0
  | f :: t => fsize f + fsizeList t

/-- Total size of the values of a pair list. -/
def fsizePairs : List (List Nat × RespFrame) → Nat
  | [] => 0
  | (_, v) :: t => fsize v + fsizePairs t

end

theorem fsize_pos : ∀ f, 1 ≤ fsize f := by
  intro f
  cases f <;> simp [fsize]

theorem fsize_le_of_mem : ∀ (l : List RespFrame) f, f ∈ l → fsize f ≤ fsizeList l := by
  intro l
  induction l with
  | nil => intro f h; cases h
  | cons g t ih =>
    intro f h
    rcases List.mem_cons.1 h with h | h
    · subst h; rw [fsizeList]; omega
    · have := ih f h; rw [fsizeList]; omega

theorem fsize_le_of_mem_pairs :
    ∀ (ps : List (List Nat × RespFrame)) p, p ∈ ps → fsize p.2 ≤ fsizePairs ps := by
  intro ps
  induction ps with
  | nil => intro p h; cases h
  | cons q t ih =>
    intro p h
    rcases List.mem_cons.1 h with h | h
    · subst h; cases p with | mk k v => rw [fsizePairs]; simp
    · have := ih p h
      cases q with | mk k v => rw [fsizePairs]; omega

/-! ### The byte-lexicographic key order -/

theorem bytesLt_irrefl : ∀ l : List Nat, bytesLt l l = false := by
  intro l
  induction l with
  | nil => rfl
  | cons a t ih => rw [bytesLt]; simp [ih]

theorem bytesLt_asymm : ∀ a b : List Nat, bytesLt a b = true → bytesLt b a = false := by
  intro a
  induction a with
  | nil =>
    intro b h
    cases b with
    | nil => cases h
    | cons x t => rfl
  | cons x t ih =>
    intro b h
    cases b with
    | nil => cases h
    | cons y u =>
      rw [bytesLt] at h ⊢
      by_cases hxy : x < y
      · have h1 : ¬ y < x := by omega
        simp [h1, hxy]
      · by_cases hyx : y < x
        · simp [hxy, hyx] at h
        · rw [if_neg hxy, if_neg hyx] at h
          rw [if_neg hyx, if_neg hxy]
          exact ih u h

theorem bytesLt_ne : ∀ a b : List Nat, bytesLt a b = true → a ≠ b := by
  intro a b h hab
  subst hab
  rw [bytesLt_irrefl] at h
  cases h

theorem bytesLt_trans :
    ∀ a b c : List Nat, bytesLt a b = true → bytesLt b c = true → bytesLt a c = true := by
  intro a
  induction a with
  | nil =>
    intro b c hab hbc
    cases c with
    | nil =>
      cases b with
      | nil => cases hab
      | cons y u => cases hbc
    | cons z w => rfl
  | cons x t ih =>
    intro b c hab hbc
    cases b with
    | nil => cases hab
    | cons y u =>
      cases c with
      | nil => cases hbc
      | cons z w =>
        rw [bytesLt] at hab hbc ⊢
        by_cases hxy : x < y <;> by_cases hyz : y < z
        · simp [show x < z by omega]
        · simp only [if_neg hyz] at hbc
          by_cases hzy : z < y
          · simp [hzy] at hbc
          · simp only [if_neg hzy] at hbc
            have : y = z := by omega
            subst this
            simp [hxy]
        · simp only [if_neg hxy] at hab
          by_cases hyx : y < x
          · simp [hyx] at hab
          · simp only [if_neg hyx] at hab
            have : x = y := by omega
            subst this
            simp [hyz]
        · simp only [if_neg hxy] at hab
          simp only [if_neg hyz] at hbc
          by_cases hyx : y < x
          · simp [hyx] at hab
          · by_cases hzy : z < y
            · simp [hzy] at hbc
            · simp only [if_neg hyx] at hab
              simp only [if_neg hzy] at hbc
              have hx : x = y := by omega
              have hy : y = z := by omega
              subst hx
              subst hy
              simp only [if_neg (by omega : ¬ x < x), bytesLt_irrefl] at hab hbc ⊢
              exact ih u w hab hbc

theorem keysSorted_cons (k : List Nat) (v : RespFrame)
    (t : List (List Nat × RespFrame)) (h : keysSorted ((k, v) :: t) = true) :
    keysSorted t = true ∧ ∀ p ∈ t, bytesLt k p.1 = true := by
  induction t generalizing k v with
  | nil => exact ⟨rfl, by intro p hp; cases hp⟩
  | cons q u ih =>
    cases q with
    | mk k₂ v₂ =>
      rw [keysSorted] at h
      simp only [Bool.and_eq_true] at h
      obtain ⟨hlt, hrest⟩ := h
      obtain ⟨hu, hall⟩ := ih k₂ v₂ hrest
      refine ⟨hrest, ?_⟩
      intro p hp
      rcases List.mem_cons.1 hp with hp | hp
      · subst hp; exact hlt
      · exact bytesLt_trans _ _ _ hlt (hall p hp)

/-- Inserting a key greater than every key of the accumulated sorted list
appends at the end (`BTreeMap` insertion on ascending input). -/
theorem mapInsert_append (acc : List (List Nat × RespFrame)) (k : List Nat)
    (v : RespFrame) (h : ∀ p ∈ acc, bytesLt p.1 k = true) :
    mapInsert acc k v = acc ++ [(k, v)] := by
  induction acc with
  | nil => rfl
  | cons q t ih =>
    cases q with
    | mk k' v' =>
      have hk' : bytesLt k' k = true := h (k', v') (by simp)
      rw [mapInsert]
      rw [if_neg (by rw [bytesLt_asymm k' k hk']; simp)]
      rw [if_neg (fun hc => bytesLt_ne k' k hk' hc.symm)]
      rw [ih (fun p hp => h p (List.mem_cons_of_mem _ hp))]
      rfl

/-! ### Decoding well-formed single frames -/

theorem simpleStringDecode_ok (s rest : List Nat) (h : hasCrlf s = false) :
    simpleStringDecode (43 :: (s ++ CR :: LF :: rest)) = .ok (.simpleString s, rest) := by
  rw [simpleStringDecode, extractSimple_ok 43 s rest h]
  show Except.ok (_, _) = _
  rw [show s ++ CR :: LF :: rest = s ++ (CR :: LF :: rest) from rfl,
    header_take 43 s (CR :: LF :: rest), header_drop 43 s rest]

theorem simpleErrorDecode_ok (s rest : List Nat) (h : hasCrlf s = false) :
    simpleErrorDecode (45 :: (s ++ CR :: LF :: rest)) = .ok (.error s, rest) := by
  rw [simpleErrorDecode, extractSimple_ok 45 s rest h]
  show Except.ok (_, _) = _
  rw [show s ++ CR :: LF :: rest = s ++ (CR :: LF :: rest) from rfl,
    header_take 45 s (CR :: LF :: rest), header_drop 45 s rest]

theorem doubleDecode_ok (s rest : List Nat) (h : hasCrlf s = false) :
    doubleDecode (44 :: (s ++ CR :: LF :: rest)) = .ok (.double s, rest) := by
  rw [doubleDecode, extractSimple_ok 44 s rest h]
  show Except.ok (_, _) = _
  rw [show s ++ CR :: LF :: rest = s ++ (CR :: LF :: rest) from rfl,
    header_take 44 s (CR :: LF :: rest), header_drop 44 s rest]

theorem integerDecode_ok (i : Int) (rest : List Nat) :
    integerDecode (58 :: (renderInt i ++ CR :: LF :: rest)) = .ok (.integer i, rest) := by
  rw [integerDecode, extractSimple_ok 58 (renderInt i) rest (renderInt_no_crlf i)]
  show (match parseI64 (((58 :: (renderInt i ++ CR :: LF :: rest)).take
      ((renderInt i).length + 1)).drop 1) with
    | none => (.error .parseIntError : Except RespError (RespFrame × List Nat))
    | some m => .ok (.integer m, (58 :: (renderInt i ++ CR :: LF :: rest)).drop
        ((renderInt i).length + 1 + CRLF_LEN))) = .ok (.integer i, rest)
  rw [show renderInt i ++ CR :: LF :: rest = renderInt i ++ (CR :: LF :: rest) from rfl,
    header_take 58 (renderInt i) (CR :: LF :: rest), parseI64_renderInt i,
    header_drop 58 (renderInt i) rest]

theorem boolDecode_ok (b : Bool) (rest : List Nat) :
    boolDecode (35 :: (if b then 116 else 102) :: CR :: LF :: rest) =
      .ok (.boolean b, rest) := by
  cases b with
  | true =>
    show boolDecode (35 :: 116 :: CR :: LF :: rest) = .ok (.boolean true, rest)
    have h1 : extractFixedData (35 :: 116 :: CR :: LF :: rest) [35, 116, CR, LF] =
        .ok rest := by
      rw [extractFixedData]
      rw [if_neg (by simp)]
      rw [if_pos (by simp [List.isPrefixOf, CR, LF])]
      rfl
    rw [boolDecode, h1]
  | false =>
    show boolDecode (35 :: 102 :: CR :: LF :: rest) = .ok (.boolean false, rest)
    have h1 : extractFixedData (35 :: 102 :: CR :: LF :: rest) [35, 116, CR, LF] =
        .error .invalidFrameType := by
      rw [extractFixedData]
      rw [if_neg (by simp)]
      rw [if_neg (by simp [List.isPrefixOf])]
    have h2 : extractFixedData (35 :: 102 :: CR :: LF :: rest) [35, 102, CR, LF] =
        .ok rest := by
      rw [extractFixedData]
      rw [if_neg (by simp)]
      rw [if_pos (by simp [List.isPrefixOf, CR, LF])]
      rfl
    rw [boolDecode, h1, h2]

theorem nullDecode_ok (rest : List Nat) :
    nullDecode (95 :: CR :: LF :: rest) = .ok (.null, rest) := by
  rw [nullDecode]
  have : extractFixedData (95 :: CR :: LF :: rest) [95, CR, LF] = .ok rest := by
    rw [extractFixedData]
    rw [if_neg (by simp)]
    rw [if_pos (by simp [List.isPrefixOf, CR, LF])]
    rfl
  rw [this]
  rfl

theorem bulkStringDecode_ok (b rest : List Nat) (hb : b ≠ []) :
    bulkStringDecode (36 :: (renderNat b.length ++ CR :: LF :: (b ++ CR :: LF :: rest))) =
      .ok (.bulkString b, rest) := by
  simp only [bulkStringDecode, parseLength_header 36 b.length (b ++ CR :: LF :: rest)]
  have hlen0 : b.length ≠ 0 := by simpa using hb
  rw [if_neg hlen0]
  have hdrop : (36 :: (renderNat b.length ++ CR :: LF :: (b ++ CR :: LF :: rest))).drop
      ((renderNat b.length).length + 1 + CRLF_LEN) = b ++ CR :: LF :: rest :=
    header_drop 36 (renderNat b.length) (b ++ CR :: LF :: rest)
  rw [hdrop]
  rw [if_neg (by simp [CRLF_LEN])]
  have htake : (b ++ CR :: LF :: rest).take b.length = b := List.take_left b _
  have hdrop2 : (b ++ CR :: LF :: rest).drop (b.length + CRLF_LEN) = rest := by
    rw [show b.length + CRLF_LEN = b.length + 2 from rfl,
      List.drop_append_eq_append_drop]
    simp
  rw [htake, hdrop2]

/-- `SimpleString::expect_length` on a well-formed header. -/
theorem simpleStringExpectLen_ok (s rest : List Nat) (h : hasCrlf s = false) :
    simpleStringExpectLen (43 :: (s ++ CR :: LF :: rest)) = .ok (s.length + 3) := by
  rw [simpleStringExpectLen, extractSimple_ok 43 s rest h]
  rfl

/-! ### Shapes and lengths of encodings -/

theorem encode_simpleString_append (s rest : List Nat) :
    encode (.simpleString s) ++ rest = 43 :: (s ++ CR :: LF :: rest) := by
  simp [encode, CRLF]

theorem encode_error_append (s rest : List Nat) :
    encode (.error s) ++ rest = 45 :: (s ++ CR :: LF :: rest) := by
  simp [encode, CRLF]

theorem encode_integer_append (i : Int) (rest : List Nat) :
    encode (.integer i) ++ rest = 58 :: (renderInt i ++ CR :: LF :: rest) := by
  simp [encode, CRLF]

theorem encode_double_append (d rest : List Nat) :
    encode (.double d) ++ rest = 44 :: (d ++ CR :: LF :: rest) := by
  simp [encode, CRLF]

theorem encode_null_append (rest : List Nat) :
    encode .null ++ rest = 95 :: CR :: LF :: rest := by
  simp [encode]

theorem encode_boolean_append (b : Bool) (rest : List Nat) :
    encode (.boolean b) ++ rest = 35 :: (if b then 116 else 102) :: CR :: LF :: rest := by
  simp [encode]

theorem encode_bulkString_append (b rest : List Nat) (hb : b ≠ []) :
    encode (.bulkString b) ++ rest =
      36 :: (renderNat b.length ++ CR :: LF :: (b ++ CR :: LF :: rest)) := by
  rw [encode, if_neg (by simpa using hb)]
  simp [CRLF]

theorem encode_array_append (l : List RespFrame) (rest : List Nat) (hl : l ≠ []) :
    encode (.array l) ++ rest =
      42 :: (renderNat l.length ++ CR :: LF :: (encodeList l ++ rest)) := by
  rw [encode, if_neg (by simpa using hl)]
  simp [CRLF]

theorem encode_set_append (l : List RespFrame) (rest : List Nat) :
    encode (.set l) ++ rest =
      126 :: (renderNat l.length ++ CR :: LF :: (encodeList l ++ rest)) := by
  rw [encode]
  simp [CRLF]

theorem encode_map_append (ps : List (List Nat × RespFrame)) (rest : List Nat) :
    encode (.map ps) ++ rest =
      37 :: (renderNat ps.length ++ CR :: LF :: (encodePairs ps ++ rest)) := by
  rw [encode]
  simp [CRLF]

theorem renderNat_length_pos (n : Nat) : 1 ≤ (renderNat n).length := by
  have := renderNat_ne_nil n
  cases h : renderNat n with
  | nil => exact absurd h this
  | cons c t => simp

theorem encode_length_pos : ∀ f : RespFrame, 3 ≤ (encode f).length := by
  intro f
  cases f with
  | simpleString s => simp [encode, CRLF]
  | error s => simp [encode, CRLF]
  | integer i => simp [encode, CRLF]
  | bulkString b =>
    rw [encode]
    split
    · simp [CRLF, renderInt]
    · simp [CRLF]
      have := renderNat_length_pos b.length
      omega
  | null => simp [encode]
  | array l =>
    rw [encode]
    split
    · simp [CRLF, renderInt]
    · simp [CRLF]
      have := renderNat_length_pos l.length
      omega
  | boolean b => simp [encode]
  | double d => simp [encode, CRLF]
  | map ps =>
    rw [encode]
    simp [CRLF]
    have := renderNat_length_pos ps.length
    omega
  | set l =>
    rw [encode]
    simp [CRLF]
    have := renderNat_length_pos l.length
    omega

theorem encodeList_cons (f : RespFrame) (t : List RespFrame) :
    encodeList (f :: t) = encode f ++ encodeList t := rfl

theorem encodePairs_cons (k : List Nat) (v : RespFrame)
    (t : List (List Nat × RespFrame)) :
    encodePairs ((k, v) :: t) = (43 :: (k ++ CRLF)) ++ encode v ++ encodePairs t := rfl

theorem length_encode_array (l : List RespFrame) (hl : l ≠ []) :
    (encode (.array l)).length =
      (renderNat l.length).length + 3 + (encodeList l).length := by
  rw [encode, if_neg (by simpa using hl)]
  simp [CRLF]
  omega

theorem length_encode_set (l : List RespFrame) :
    (encode (.set l)).length =
      (renderNat l.length).length + 3 + (encodeList l).length := by
  rw [encode]
  simp [CRLF]
  omega

theorem length_encode_map (ps : List (List Nat × RespFrame)) :
    (encode (.map ps)).length =
      (renderNat ps.length).length + 3 + (encodePairs ps).length := by
  rw [encode]
  simp [CRLF]
  omega

theorem length_encode_bulkString (b : List Nat) (hb : b ≠ []) :
    (encode (.bulkString b)).length =
      (renderNat b.length).length + b.length + 5 := by
  rw [encode, if_neg (by simpa using hb)]
  simp [CRLF]
  omega

/-! ### Round-trip statements -/

/-- `expect_length` is exact on the encoding of a frame, at any sufficient
fuel. -/
def ExpOK (f : RespFrame) : Prop :=
  ∀ (rest : List Nat) (fuel : Nat), (encode f).length ≤ fuel →
    expectLenF fuel (encode f ++ rest) = .ok (encode f).length

/-- `decode` recovers a frame from its encoding and leaves the trailing
bytes, at any sufficient fuel. -/
def DecOK (f : RespFrame) : Prop :=
  ∀ (rest : List Nat) (fuel : Nat), (encode f).length ≤ fuel →
    decodeF fuel (encode f ++ rest) = .ok (f, rest)

/-! ### Dispatch equations (definitional) -/

theorem decodeF_disp43 (fuel : Nat) (tail : List Nat) :
    decodeF (fuel + 1) (43 :: tail) = liftE (simpleStringDecode (43 :: tail)) := rfl

theorem decodeF_disp45 (fuel : Nat) (tail : List Nat) :
    decodeF (fuel + 1) (45 :: tail) = liftE (simpleErrorDecode (45 :: tail)) := rfl

theorem decodeF_disp58 (fuel : Nat) (tail : List Nat) :
    decodeF (fuel + 1) (58 :: tail) = liftE (integerDecode (58 :: tail)) := rfl

theorem decodeF_disp35 (fuel : Nat) (tail : List Nat) :
    decodeF (fuel + 1) (35 :: tail) = liftE (boolDecode (35 :: tail)) := rfl

theorem decodeF_disp95 (fuel : Nat) (tail : List Nat) :
    decodeF (fuel + 1) (95 :: tail) = liftE (nullDecode (95 :: tail)) := rfl

theorem decodeF_disp44 (fuel : Nat) (tail : List Nat) :
    decodeF (fuel + 1) (44 :: tail) = liftE (doubleDecode (44 :: tail)) := rfl

theorem decodeF_disp36 (fuel : Nat) (tail : List Nat) :
    decodeF (fuel + 1) (36 :: tail) = bulkStringDecode (36 :: tail) := rfl

theorem decodeF_disp42 (fuel : Nat) (tail : List Nat) :
    decodeF (fuel + 1) (42 :: tail) = arrayDecode fuel (42 :: tail) := rfl

theorem decodeF_disp126 (fuel : Nat) (tail : List Nat) :
    decodeF (fuel + 1) (126 :: tail) = setDecode fuel (126 :: tail) := rfl

theorem decodeF_disp37 (fuel : Nat) (tail : List Nat) :
    decodeF (fuel + 1) (37 :: tail) = mapDecode fuel (37 :: tail) := rfl

theorem expectLenF_dispSimple (fuel b : Nat) (tail : List Nat)
    (hb : b = 43 ∨ b = 45 ∨ b = 58 ∨ b = 44) :
    expectLenF (fuel + 1) (b :: tail) =
      (match extractSimpleFrameData (b :: tail) b with
        | .error e => .err e
        | .ok e => .ok (e + CRLF_LEN)) := by
  rcases hb with rfl | rfl | rfl | rfl <;> rfl

theorem expectLenF_disp35 (fuel : Nat) (tail : List Nat) :
    expectLenF (fuel + 1) (35 :: tail) = .ok 4 := rfl

theorem expectLenF_disp95 (fuel : Nat) (tail : List Nat) :
    expectLenF (fuel + 1) (95 :: tail) = .ok 3 := rfl

theorem expectLenF_disp36 (fuel : Nat) (tail : List Nat) :
    expectLenF (fuel + 1) (36 :: tail) =
      (match parseLength (36 :: tail) 36 with
        | .error e => .err e
        | .ok (e, len) => .ok (e + CRLF_LEN + len + CRLF_LEN)) := rfl

theorem expectLenF_dispAgg (fuel b : Nat) (tail : List Nat)
    (hb : b = 42 ∨ b = 126 ∨ b = 37) :
    expectLenF (fuel + 1) (b :: tail) =
      (match parseLength (b :: tail) b with
        | .error e => .err e
        | .ok (e, len) => calcTotalLength fuel (b :: tail) e len b) := by
  rcases hb with rfl | rfl | rfl <;> rfl

theorem calcTotalLength_disp42 (fuel : Nat) (buf : List Nat) (e len : Nat) :
    calcTotalLength (fuel + 1) buf e len 42 =
      calcElemsLoop fuel len (e + CRLF_LEN) (buf.drop (e + CRLF_LEN)) := rfl

theorem calcTotalLength_disp126 (fuel : Nat) (buf : List Nat) (e len : Nat) :
    calcTotalLength (fuel + 1) buf e len 126 =
      calcElemsLoop fuel len (e + CRLF_LEN) (buf.drop (e + CRLF_LEN)) := rfl

theorem calcTotalLength_disp37 (fuel : Nat) (buf : List Nat) (e len : Nat) :
    calcTotalLength (fuel + 1) buf e len 37 =
      calcPairsLoop fuel len (e + CRLF_LEN) (buf.drop (e + CRLF_LEN)) := rfl

/-! ### The aggregate loops on complete well-formed buffers -/

theorem calcElemsLoop_ok (l : List RespFrame) (hE : ∀ f ∈ l, ExpOK f) :
    ∀ (rest : List Nat) (fuel total : Nat), (encodeList l).length + 1 ≤ fuel →
      calcElemsLoop fuel l.length total (encodeList l ++ rest) =
        .ok (total + (encodeList l).length) := by
  induction l with
  | nil =>
    intro rest fuel total hf
    obtain ⟨fu, rfl⟩ : ∃ k, fuel = k + 1 := ⟨fuel - 1, by omega⟩
    simp [calcElemsLoop, encodeList]
  | cons f t ih =>
    intro rest fuel total hf
    obtain ⟨fu, rfl⟩ : ∃ k, fuel = k + 1 := ⟨fuel - 1, by omega⟩
    rw [encodeList_cons] at hf ⊢
    rw [List.append_assoc]
    show calcElemsLoop (fu + 1) (t.length + 1) total
      (encode f ++ (encodeList t ++ rest)) = _
    rw [calcElemsLoop]
    rw [hE f (by simp) (encodeList t ++ rest) fu
      (by simp only [List.length_append] at hf; omega)]
    dsimp only
    rw [if_pos (by simp)]
    rw [List.drop_left]
    have h3 := encode_length_pos f
    rw [ih (fun g hg => hE g (List.mem_cons_of_mem f hg)) rest fu
      (total + (encode f).length)
      (by simp only [List.length_append] at hf; omega)]
    simp only [List.length_append]
    congr 1
    omega

theorem decodeElems_ok (l : List RespFrame) (hD : ∀ f ∈ l, DecOK f) :
    ∀ (rest : List Nat) (fuel : Nat), (encodeList l).length + 1 ≤ fuel →
      decodeElems fuel l.length (encodeList l ++ rest) = .ok (l, rest) := by
  induction l with
  | nil =>
    intro rest fuel hf
    obtain ⟨fu, rfl⟩ : ∃ k, fuel = k + 1 := ⟨fuel - 1, by omega⟩
    simp [decodeElems, encodeList]
  | cons f t ih =>
    intro rest fuel hf
    obtain ⟨fu, rfl⟩ : ∃ k, fuel = k + 1 := ⟨fuel - 1, by omega⟩
    rw [encodeList_cons] at hf ⊢
    rw [List.append_assoc]
    show decodeElems (fu + 1) (t.length + 1)
      (encode f ++ (encodeList t ++ rest)) = _
    rw [decodeElems]
    rw [hD f (by simp) (encodeList t ++ rest) fu
      (by simp only [List.length_append] at hf; omega)]
    dsimp only
    have h3 := encode_length_pos f
    rw [ih (fun g hg => hD g (List.mem_cons_of_mem f hg)) rest fu
      (by simp only [List.length_append] at hf; omega)]

theorem calcPairsLoop_ok (ps : List (List Nat × RespFrame))
    (hE : ∀ p ∈ ps, ExpOK p.2) (hk : ∀ p ∈ ps, hasCrlf p.1 = false) :
    ∀ (rest : List Nat) (fuel total : Nat), (encodePairs ps).length + 1 ≤ fuel →
      calcPairsLoop fuel ps.length total (encodePairs ps ++ rest) =
        .ok (total + (encodePairs ps).length) := by
  induction ps with
  | nil =>
    intro rest fuel total hf
    obtain ⟨fu, rfl⟩ : ∃ k, fuel = k + 1 := ⟨fuel - 1, by omega⟩
    simp [calcPairsLoop, encodePairs]
  | cons p t ih =>
    obtain ⟨k, v⟩ := p
    intro rest fuel total hf
    obtain ⟨fu, rfl⟩ : ∃ k, fuel = k + 1 := ⟨fuel - 1, by omega⟩
    rw [encodePairs_cons] at hf ⊢
    have hbuf : ((43 :: (k ++ CRLF)) ++ encode v ++ encodePairs t) ++ rest =
        43 :: (k ++ CR :: LF :: (encode v ++ (encodePairs t ++ rest))) := by
      simp [CRLF]
    rw [hbuf]
    show calcPairsLoop (fu + 1) (t.length + 1) total _ = _
    rw [calcPairsLoop]
    rw [simpleStringExpectLen_ok k (encode v ++ (encodePairs t ++ rest))
      (hk (k, v) (by simp))]
    dsimp only
    rw [if_pos (by simp)]
    have hdrop : (43 :: (k ++ CR :: LF :: (encode v ++ (encodePairs t ++ rest)))).drop
        (k.length + 3) = encode v ++ (encodePairs t ++ rest) := by
      have h := header_drop 43 k (encode v ++ (encodePairs t ++ rest))
      simp only [CRLF_LEN] at h
      exact h
    rw [hdrop]
    have hlen : ((43 :: (k ++ CRLF)) ++ encode v ++ encodePairs t).length =
        k.length + 3 + (encode v).length + (encodePairs t).length := by
      simp [CRLF]
      omega
    rw [hlen] at hf
    have hEv : ExpOK v := hE (k, v) (by simp)
    rw [hEv (encodePairs t ++ rest) fu (by omega)]
    dsimp only
    rw [if_pos (by simp)]
    rw [List.drop_left]
    have h3 := encode_length_pos v
    rw [ih (fun q hq => hE q (List.mem_cons_of_mem _ hq))
      (fun q hq => hk q (List.mem_cons_of_mem _ hq)) rest fu
      (total + (k.length + 3) + (encode v).length) (by omega)]
    rw [hlen]
    congr 1
    omega

theorem decodePairs_ok (ps : List (List Nat × RespFrame))
    (hD : ∀ p ∈ ps, DecOK p.2) (hk : ∀ p ∈ ps, hasCrlf p.1 = false)
    (hs : keysSorted ps = true) :
    ∀ (acc : List (List Nat × RespFrame)) (rest : List Nat) (fuel : Nat),
      (∀ a ∈ acc, ∀ p ∈ ps, bytesLt a.1 p.1 = true) →
      (encodePairs ps).length + 1 ≤ fuel →
      decodePairs fuel ps.length acc (encodePairs ps ++ rest) =
        .ok (acc ++ ps, rest) := by
  induction ps with
  | nil =>
    intro acc rest fuel _ hf
    obtain ⟨fu, rfl⟩ : ∃ k, fuel = k + 1 := ⟨fuel - 1, by omega⟩
    simp [decodePairs, encodePairs]
  | cons p t ih =>
    obtain ⟨k, v⟩ := p
    intro acc rest fuel hacc hf
    obtain ⟨fu, rfl⟩ : ∃ k, fuel = k + 1 := ⟨fuel - 1, by omega⟩
    rw [encodePairs_cons] at hf ⊢
    have hbuf : ((43 :: (k ++ CRLF)) ++ encode v ++ encodePairs t) ++ rest =
        43 :: (k ++ CR :: LF :: (encode v ++ (encodePairs t ++ rest))) := by
      simp [CRLF]
    rw [hbuf]
    show decodePairs (fu + 1) (t.length + 1) acc _ = _
    rw [decodePairs]
    rw [simpleStringDecode_ok k (encode v ++ (encodePairs t ++ rest))
      (hk (k, v) (by simp))]
    dsimp only
    have hlen : ((43 :: (k ++ CRLF)) ++ encode v ++ encodePairs t).length =
        k.length + 3 + (encode v).length + (encodePairs t).length := by
      simp [CRLF]
      omega
    rw [hlen] at hf
    have hDv : DecOK v := hD (k, v) (by simp)
    rw [hDv (encodePairs t ++ rest) fu (by omega)]
    dsimp only
    obtain ⟨hst, hall⟩ := keysSorted_cons k v t hs
    rw [mapInsert_append acc k v (fun a ha => hacc a ha (k, v) (by simp))]
    have h3 := encode_length_pos v
    rw [ih (fun q hq => hD q (List.mem_cons_of_mem _ hq))
      (fun q hq => hk q (List.mem_cons_of_mem _ hq)) hst
      (acc ++ [(k, v)]) rest fu ?hacc (by omega)]
    · simp
    case hacc =>
      intro a ha p hp
      rcases List.mem_append.1 ha with ha | ha
      · exact hacc a ha p (List.mem_cons_of_mem _ hp)
      · simp only [List.mem_singleton] at ha
        subst ha
        exact hall p hp


/-! ### Legality of members of aggregates -/

theorem legalList_mem : ∀ l : List RespFrame, legalList l = true →
    ∀ g ∈ l, legal g = true := by
  intro l hl g hg
  induction l with
  | nil => cases hg
  | cons f t ih =>
    rw [legalList] at hl
    simp only [Bool.and_eq_true] at hl
    rcases List.mem_cons.1 hg with h | h
    · subst h; exact hl.1
    · exact ih hl.2 h

theorem sentinelFreeList_mem : ∀ l : List RespFrame, sentinelFreeList l = true →
    ∀ g ∈ l, sentinelFree g = true := by
  intro l hl g hg
  induction l with
  | nil => cases hg
  | cons f t ih =>
    rw [sentinelFreeList] at hl
    simp only [Bool.and_eq_true] at hl
    rcases List.mem_cons.1 hg with h | h
    · subst h; exact hl.1
    · exact ih hl.2 h

theorem legalPairs_mem : ∀ ps : List (List Nat × RespFrame), legalPairs ps = true →
    ∀ p ∈ ps, hasCrlf p.1 = false ∧ legal p.2 = true := by
  intro ps hps p hp
  induction ps with
  | nil => cases hp
  | cons q t ih =>
    obtain ⟨k, v⟩ := q
    rw [legalPairs] at hps
    simp only [Bool.and_eq_true, Bool.not_eq_true'] at hps
    rcases List.mem_cons.1 hp with h | h
    · subst h; exact ⟨hps.1.1, hps.1.2⟩
    · exact ih hps.2 h

theorem sentinelFreePairs_mem : ∀ ps : List (List Nat × RespFrame),
    sentinelFreePairs ps = true → ∀ p ∈ ps, sentinelFree p.2 = true := by
  intro ps hps p hp
  induction ps with
  | nil => cases hp
  | cons q t ih =>
    obtain ⟨k, v⟩ := q
    rw [sentinelFreePairs] at hps
    simp only [Bool.and_eq_true] at hps
    rcases List.mem_cons.1 hp with h | h
    · subst h; exact hps.1
    · exact ih hps.2 h



/-! ### The round-trip induction -/

theorem codec_ok : ∀ (N : Nat) (f : RespFrame), fsize f ≤ N →
    legal f = true → sentinelFree f = true → ExpOK f ∧ DecOK f := by
  intro N
  induction N with
  | zero =>
    intro f h _ _
    have := fsize_pos f
    omega
  | succ N ih =>
    intro f hsz hleg hsf
    have hpos := encode_length_pos f
    cases f with
    | simpleString s =>
      have hcr : hasCrlf s = false := by
        rw [legal] at hleg
        simp only [Bool.not_eq_true'] at hleg
        exact hleg
      constructor
      · intro rest fuel hfu
        obtain ⟨fu, rfl⟩ : ∃ k, fuel = k + 1 := ⟨fuel - 1, by omega⟩
        rw [encode_simpleString_append,
          expectLenF_dispSimple fu 43 _ (Or.inl rfl),
          extractSimple_ok 43 s rest hcr]
        simp [encode, CRLF, CRLF_LEN]
      · intro rest fuel hfu
        obtain ⟨fu, rfl⟩ : ∃ k, fuel = k + 1 := ⟨fuel - 1, by omega⟩
        rw [encode_simpleString_append, decodeF_disp43,
          simpleStringDecode_ok s rest hcr]
        rfl
    | error s =>
      have hcr : hasCrlf s = false := by
        rw [legal] at hleg
        simp only [Bool.not_eq_true'] at hleg
        exact hleg
      constructor
      · intro rest fuel hfu
        obtain ⟨fu, rfl⟩ : ∃ k, fuel = k + 1 := ⟨fuel - 1, by omega⟩
        rw [encode_error_append,
          expectLenF_dispSimple fu 45 _ (Or.inr (Or.inl rfl)),
          extractSimple_ok 45 s rest hcr]
        simp [encode, CRLF, CRLF_LEN]
      · intro rest fuel hfu
        obtain ⟨fu, rfl⟩ : ∃ k, fuel = k + 1 := ⟨fuel - 1, by omega⟩
        rw [encode_error_append, decodeF_disp45,
          simpleErrorDecode_ok s rest hcr]
        rfl
    | integer i =>
      constructor
      · intro rest fuel hfu
        obtain ⟨fu, rfl⟩ : ∃ k, fuel = k + 1 := ⟨fuel - 1, by omega⟩
        rw [encode_integer_append,
          expectLenF_dispSimple fu 58 _ (Or.inr (Or.inr (Or.inl rfl))),
          extractSimple_ok 58 (renderInt i) rest (renderInt_no_crlf i)]
        simp [encode, CRLF, CRLF_LEN]
      · intro rest fuel hfu
        obtain ⟨fu, rfl⟩ : ∃ k, fuel = k + 1 := ⟨fuel - 1, by omega⟩
        rw [encode_integer_append, decodeF_disp58, integerDecode_ok i rest]
        rfl
    | double d =>
      have hcr : hasCrlf d = false := by
        rw [legal] at hleg
        simp only [Bool.and_eq_true, Bool.not_eq_true'] at hleg
        exact hleg.2
      constructor
      · intro rest fuel hfu
        obtain ⟨fu, rfl⟩ : ∃ k, fuel = k + 1 := ⟨fuel - 1, by omega⟩
        rw [encode_double_append,
          expectLenF_dispSimple fu 44 _ (Or.inr (Or.inr (Or.inr rfl))),
          extractSimple_ok 44 d rest hcr]
        simp [encode, CRLF, CRLF_LEN]
      · intro rest fuel hfu
        obtain ⟨fu, rfl⟩ : ∃ k, fuel = k + 1 := ⟨fuel - 1, by omega⟩
        rw [encode_double_append, decodeF_disp44, doubleDecode_ok d rest hcr]
        rfl
    | boolean b =>
      constructor
      · intro rest fuel hfu
        obtain ⟨fu, rfl⟩ : ∃ k, fuel = k + 1 := ⟨fuel - 1, by omega⟩
        rw [encode_boolean_append, expectLenF_disp35]
        simp [encode]
      · intro rest fuel hfu
        obtain ⟨fu, rfl⟩ : ∃ k, fuel = k + 1 := ⟨fuel - 1, by omega⟩
        rw [encode_boolean_append, decodeF_disp35, boolDecode_ok b rest]
        rfl
    | null =>
      constructor
      · intro rest fuel hfu
        obtain ⟨fu, rfl⟩ : ∃ k, fuel = k + 1 := ⟨fuel - 1, by omega⟩
        rw [encode_null_append, expectLenF_disp95]
        simp [encode]
      · intro rest fuel hfu
        obtain ⟨fu, rfl⟩ : ∃ k, fuel = k + 1 := ⟨fuel - 1, by omega⟩
        rw [encode_null_append, decodeF_disp95, nullDecode_ok rest]
        rfl
    | bulkString b =>
      have hb : b ≠ [] := by
        rw [sentinelFree] at hsf
        simpa using hsf
      constructor
      · intro rest fuel hfu
        obtain ⟨fu, rfl⟩ : ∃ k, fuel = k + 1 := ⟨fuel - 1, by omega⟩
        rw [encode_bulkString_append b rest hb, expectLenF_disp36,
          parseLength_header 36 b.length (b ++ CR :: LF :: rest)]
        dsimp only
        rw [length_encode_bulkString b hb]
        show DResult.ok ((renderNat b.length).length + 1 + CRLF_LEN + b.length + CRLF_LEN) = _
        rw [show CRLF_LEN = 2 from rfl]
        congr 1
        omega
      · intro rest fuel hfu
        obtain ⟨fu, rfl⟩ : ∃ k, fuel = k + 1 := ⟨fuel - 1, by omega⟩
        rw [encode_bulkString_append b rest hb, decodeF_disp36,
          bulkStringDecode_ok b rest hb]
    | array l =>
      have hl : l ≠ [] := by
        rw [sentinelFree] at hsf
        simp only [Bool.and_eq_true] at hsf
        simpa using hsf.1
      have hlegl : legalList l = true := by rw [legal] at hleg; exact hleg
      have hsfl : sentinelFreeList l = true := by
        rw [sentinelFree] at hsf
        simp only [Bool.and_eq_true] at hsf
        exact hsf.2
      have hsub : ∀ g ∈ l, ExpOK g ∧ DecOK g := by
        intro g hg
        refine ih g ?_ (legalList_mem l hlegl g hg) (sentinelFreeList_mem l hsfl g hg)
        have h1 := fsize_le_of_mem l g hg
        rw [fsize] at hsz
        omega
      have hlenc := length_encode_array l hl
      have hrn := renderNat_length_pos l.length
      constructor
      · intro rest fuel hfu
        obtain ⟨fu, rfl⟩ : ∃ k, fuel = k + 1 := ⟨fuel - 1, by omega⟩
        rw [encode_array_append l rest hl,
          expectLenF_dispAgg fu 42 _ (Or.inl rfl),
          parseLength_header 42 l.length (encodeList l ++ rest)]
        dsimp only
        obtain ⟨fu2, rfl⟩ : ∃ k, fu = k + 1 := ⟨fu - 1, by omega⟩
        rw [calcTotalLength_disp42]
        have hdrop : (42 :: (renderNat l.length ++ CR :: LF :: (encodeList l ++ rest))).drop
            ((renderNat l.length).length + 1 + CRLF_LEN) = encodeList l ++ rest :=
          header_drop 42 (renderNat l.length) (encodeList l ++ rest)
        rw [hdrop]
        rw [calcElemsLoop_ok l (fun g hg => (hsub g hg).1) rest fu2
          ((renderNat l.length).length + 1 + CRLF_LEN) (by omega)]
        rw [hlenc]
        rw [show CRLF_LEN = 2 from rfl]
      · intro rest fuel hfu
        obtain ⟨fu, rfl⟩ : ∃ k, fuel = k + 1 := ⟨fuel - 1, by omega⟩
        rw [encode_array_append l rest hl, decodeF_disp42]
        obtain ⟨fu2, rfl⟩ : ∃ k, fu = k + 1 := ⟨fu - 1, by omega⟩
        rw [arrayDecode]
        rw [parseLength_header 42 l.length (encodeList l ++ rest)]
        dsimp only
        rw [if_neg (by simpa using hl)]
        obtain ⟨fu3, rfl⟩ : ∃ k, fu2 = k + 1 := ⟨fu2 - 1, by omega⟩
        rw [calcTotalLength_disp42]
        have hdrop : (42 :: (renderNat l.length ++ CR :: LF :: (encodeList l ++ rest))).drop
            ((renderNat l.length).length + 1 + CRLF_LEN) = encodeList l ++ rest :=
          header_drop 42 (renderNat l.length) (encodeList l ++ rest)
        rw [hdrop]
        rw [calcElemsLoop_ok l (fun g hg => (hsub g hg).1) rest fu3
          ((renderNat l.length).length + 1 + CRLF_LEN) (by omega)]
        dsimp only
        rw [if_neg (by
          simp only [List.length_cons, List.length_append, CRLF_LEN]
          omega)]
        rw [decodeElems_ok l (fun g hg => (hsub g hg).2) rest (fu3 + 1) (by omega)]
    | set l =>
      have hlegl : legalList l = true := by rw [legal] at hleg; exact hleg
      have hsfl : sentinelFreeList l = true := by rw [sentinelFree] at hsf; exact hsf
      have hsub : ∀ g ∈ l, ExpOK g ∧ DecOK g := by
        intro g hg
        refine ih g ?_ (legalList_mem l hlegl g hg) (sentinelFreeList_mem l hsfl g hg)
        have h1 := fsize_le_of_mem l g hg
        rw [fsize] at hsz
        omega
      have hlenc := length_encode_set l
      have hrn := renderNat_length_pos l.length
      constructor
      · intro rest fuel hfu
        obtain ⟨fu, rfl⟩ : ∃ k, fuel = k + 1 := ⟨fuel - 1, by omega⟩
        rw [encode_set_append l rest,
          expectLenF_dispAgg fu 126 _ (Or.inr (Or.inl rfl)),
          parseLength_header 126 l.length (encodeList l ++ rest)]
        dsimp only
        obtain ⟨fu2, rfl⟩ : ∃ k, fu = k + 1 := ⟨fu - 1, by omega⟩
        rw [calcTotalLength_disp126]
        have hdrop : (126 :: (renderNat l.length ++ CR :: LF :: (encodeList l ++ rest))).drop
            ((renderNat l.length).length + 1 + CRLF_LEN) = encodeList l ++ rest :=
          header_drop 126 (renderNat l.length) (encodeList l ++ rest)
        rw [hdrop]
        rw [calcElemsLoop_ok l (fun g hg => (hsub g hg).1) rest fu2
          ((renderNat l.length).length + 1 + CRLF_LEN) (by omega)]
        rw [hlenc]
        rw [show CRLF_LEN = 2 from rfl]
      · intro rest fuel hfu
        obtain ⟨fu, rfl⟩ : ∃ k, fuel = k + 1 := ⟨fuel - 1, by omega⟩
        rw [encode_set_append l rest, decodeF_disp126]
        obtain ⟨fu2, rfl⟩ : ∃ k, fu = k + 1 := ⟨fu - 1, by omega⟩
        rw [setDecode]
        rw [parseLength_header 126 l.length (encodeList l ++ rest)]
        dsimp only
        obtain ⟨fu3, rfl⟩ : ∃ k, fu2 = k + 1 := ⟨fu2 - 1, by omega⟩
        rw [calcTotalLength_disp126]
        have hdrop : (126 :: (renderNat l.length ++ CR :: LF :: (encodeList l ++ rest))).drop
            ((renderNat l.length).length + 1 + CRLF_LEN) = encodeList l ++ rest :=
          header_drop 126 (renderNat l.length) (encodeList l ++ rest)
        rw [hdrop]
        rw [calcElemsLoop_ok l (fun g hg => (hsub g hg).1) rest fu3
          ((renderNat l.length).length + 1 + CRLF_LEN) (by omega)]
        dsimp only
        rw [if_neg (by
          simp only [List.length_cons, List.length_append, CRLF_LEN]
          omega)]
        rw [decodeElems_ok l (fun g hg => (hsub g hg).2) rest (fu3 + 1) (by omega)]
    | map ps =>
      have hks : keysSorted ps = true := by
        rw [legal] at hleg
        simp only [Bool.and_eq_true] at hleg
        exact hleg.1
      have hlegp : legalPairs ps = true := by
        rw [legal] at hleg
        simp only [Bool.and_eq_true] at hleg
        exact hleg.2
      have hsfp : sentinelFreePairs ps = true := by rw [sentinelFree] at hsf; exact hsf
      have hsub : ∀ p ∈ ps, ExpOK p.2 ∧ DecOK p.2 := by
        intro p hp
        refine ih p.2 ?_ (legalPairs_mem ps hlegp p hp).2 (sentinelFreePairs_mem ps hsfp p hp)
        have h1 := fsize_le_of_mem_pairs ps p hp
        rw [fsize] at hsz
        omega
      have hkeys : ∀ p ∈ ps, hasCrlf p.1 = false :=
        fun p hp => (legalPairs_mem ps hlegp p hp).1
      have hlenc := length_encode_map ps
      have hrn := renderNat_length_pos ps.length
      constructor
      · intro rest fuel hfu
        obtain ⟨fu, rfl⟩ : ∃ k, fuel = k + 1 := ⟨fuel - 1, by omega⟩
        rw [encode_map_append ps rest,
          expectLenF_dispAgg fu 37 _ (Or.inr (Or.inr rfl)),
          parseLength_header 37 ps.length (encodePairs ps ++ rest)]
        dsimp only
        obtain ⟨fu2, rfl⟩ : ∃ k, fu = k + 1 := ⟨fu - 1, by omega⟩
        rw [calcTotalLength_disp37]
        have hdrop : (37 :: (renderNat ps.length ++ CR :: LF :: (encodePairs ps ++ rest))).drop
            ((renderNat ps.length).length + 1 + CRLF_LEN) = encodePairs ps ++ rest :=
          header_drop 37 (renderNat ps.length) (encodePairs ps ++ rest)
        rw [hdrop]
        rw [calcPairsLoop_ok ps (fun p hp => (hsub p hp).1) hkeys rest fu2
          ((renderNat ps.length).length + 1 + CRLF_LEN) (by omega)]
        rw [hlenc]
        rw [show CRLF_LEN = 2 from rfl]
      · intro rest fuel hfu
        obtain ⟨fu, rfl⟩ : ∃ k, fuel = k + 1 := ⟨fuel - 1, by omega⟩
        rw [encode_map_append ps rest, decodeF_disp37]
        obtain ⟨fu2, rfl⟩ : ∃ k, fu = k + 1 := ⟨fu - 1, by omega⟩
        rw [mapDecode]
        rw [parseLength_header 37 ps.length (encodePairs ps ++ rest)]
        dsimp only
        obtain ⟨fu3, rfl⟩ : ∃ k, fu2 = k + 1 := ⟨fu2 - 1, by omega⟩
        rw [calcTotalLength_disp37]
        have hdrop : (37 :: (renderNat ps.length ++ CR :: LF :: (encodePairs ps ++ rest))).drop
            ((renderNat ps.length).length + 1 + CRLF_LEN) = encodePairs ps ++ rest :=
          header_drop 37 (renderNat ps.length) (encodePairs ps ++ rest)
        rw [hdrop]
        rw [calcPairsLoop_ok ps (fun p hp => (hsub p hp).1) hkeys rest fu3
          ((renderNat ps.length).length + 1 + CRLF_LEN) (by omega)]
        dsimp only
        rw [if_neg (by
          simp only [List.length_cons, List.length_append, CRLF_LEN]
          omega)]
        rw [decodePairs_ok ps (fun p hp => (hsub p hp).2) hkeys hks []
          rest (fu3 + 1) (fun a ha => absurd ha (List.not_mem_nil a)) (by omega)]
        dsimp only
        rw [List.nil_append]


/-- Decoding the encoding of a legal sentinel-free frame, followed by any
trailing bytes, returns the frame and leaves the trailing bytes. -/
theorem decodeFrame_encode (f : RespFrame) (h1 : legal f = true)
    (h2 : sentinelFree f = true) (rest : List Nat) :
    decodeFrame (encode f ++ rest) = .ok (f, rest) := by
  refine (codec_ok (fsize f) f le_rfl h1 h2).2 rest ((encode f ++ rest).length + 1) ?_
  simp only [List.length_append]
  omega

/-- `expect_length` on the encoding of a legal sentinel-free frame is exactly
the encoding's length. -/
theorem expectLength_encode (f : RespFrame) (h1 : legal f = true)
    (h2 : sentinelFree f = true) (rest : List Nat) :
    expectLength (encode f ++ rest) = .ok (encode f).length := by
  refine (codec_ok (fsize f) f le_rfl h1 h2).1 rest ((encode f ++ rest).length + 1) ?_
  simp only [List.length_append]
  omega


/-! ### The respv2 length probe (`src/respv2/parser.rs`) -/

/-- Index of the first CRLF pair, scanning from the start (winnow
`take_until(0.., CRLF)`). -/
def findPair : List Nat → Option Nat
  | a :: b :: t =>
      if a = CR ∧ b = LF then some 0
      else (findPair (b :: t)).map (· + 1)
  | _ => none

/-- winnow `terminated(take_until(0.., CRLF), CRLF)`: consume up to and
including the first CRLF, returning the remaining input; fail (on this
complete input) when no CRLF is present. -/
def wTakeLine (input : List Nat) : Option (List Nat) :=
  (findPair input).map (fun i => input.drop (i + 2))

/-- The winnow `integer` parser of `src/respv2/parser.rs`: an optional sign,
one or more digits (`digit1`), then a CRLF terminator. -/
def wInteger (input : List Nat) : Option (Int × List Nat) :=
  let sr : Int × List Nat :=
    match input with
    | 43 :: r => (1, r)
    | 45 :: r => (-1, r)
    | _ => (1, input)
  let digits := sr.2.takeWhile isDigit
  if digits = [] then none
  else
    match sr.2.drop digits.length with
    | 13 :: 10 :: r2 => some (sr.1 * (digitsVal digits : Int), r2)
    | _ => none

/-- `bulk_string_len` from `src/respv2/parser.rs`. -/
def bulkStringLenV2 (input : List Nat) : Option (List Nat) :=
  match wInteger input with
  | none => none
  | some (len, r) =>
    if len = 0 ∨ len = -1 then some r
    else if len < -1 then none
    else
      if len.toNat ≤ r.length then
        match r.drop len.toNat with
        | 13 :: 10 :: r2 => some r2
        | _ => none
      else none

mutual

/-- `parse_frame_len` from `src/respv2/parser.rs`: dispatch on the first
byte; the simple line types consume one CRLF-terminated line, the aggregate
types recurse.  `fuel` is the structural recursion measure of the
embedding; the instantiation in `parseFrameLength` never exhausts it. -/
def parseFrameLenF : Nat → List Nat → Option (List Nat)
  | 0, _ => none
  | fuel + 1, input =>
    match input with
    | [] => none
    | b :: rest =>
      if b = 43 ∨ b = 45 ∨ b = 58 ∨ b = 95 ∨ b = 35 ∨ b = 44 then wTakeLine rest
      else if b = 36 then bulkStringLenV2 rest
      else if b = 42 then arrayLenF fuel rest
      else if b = 37 then mapLenF fuel rest
      else if b = 126 then setLenF fuel rest
      else none
termination_by structural fuel _ => fuel

/-- `array_len` from `src/respv2/parser.rs`. -/
def arrayLenF : Nat → List Nat → Option (List Nat)
  | 0, _ => none
  | fuel + 1, input =>
    match wInteger input with
    | none => none
    | some (len, r) =>
      if len = 0 ∨ len = -1 then some r
      else if len < -1 then none
      else frameLenLoop fuel len.toNat r
termination_by structural fuel _ => fuel

/-- `set_len` from `src/respv2/parser.rs` (`len ≤ 0` is an error). -/
def setLenF : Nat → List Nat → Option (List Nat)
  | 0, _ => none
  | fuel + 1, input =>
    match wInteger input with
    | none => none
    | some (len, r) =>
      if len ≤ 0 then none
      else frameLenLoop fuel len.toNat r
termination_by structural fuel _ => fuel

/-- `map_len` from `src/respv2/parser.rs`: a CRLF-terminated key line, then
a frame length, `len` times. -/
def mapLenF : Nat → List Nat → Option (List Nat)
  | 0, _ => none
  | fuel + 1, input =>
    match wInteger input with
    | none => none
    | some (len, r) =>
      if len ≤ 0 then none
      else mapLenLoop fuel len.toNat r
termination_by structural fuel _ => fuel

/-- The element loop shared by `array_len` and `set_len`. -/
def frameLenLoop : Nat → Nat → List Nat → Option (List Nat)
  | 0, _, _ => none
  | _ + 1, 0, input => some input
  | fuel + 1, n + 1, input =>
    match parseFrameLenF fuel input with
    | none => none
    | some r => frameLenLoop fuel n r
termination_by structural fuel _ _ => fuel

/-- The pair loop of `map_len`. -/
def mapLenLoop : Nat → Nat → List Nat → Option (List Nat)
  | 0, _, _ => none
  | _ + 1, 0, input => some input
  | fuel + 1, n + 1, input =>
    match wTakeLine input with
    | none => none
    | some r =>
      match parseFrameLenF fuel r with
      | none => none
      | some r2 => mapLenLoop fuel n r2
termination_by structural fuel _ _ => fuel

end

/-- `parse_frame_length` from `src/respv2/parser.rs`: run `parse_frame_len`
and return the number of consumed bytes; EVERY parse failure — including
permanent ones such as an unknown prefix byte or a malformed length — is
mapped to `RespError::NotComplete` by the `Err(_) => Err(RespError::NotComplete)`
arm. -/
def parseFrameLength (input : List Nat) : Except RespError Nat :=
  match parseFrameLenF (input.length + 1) input with
  | some remaining => .ok (input.length - remaining.length)
  | none => .error .notComplete


/-! ### Backend (`src/backend/mod.rs`)

The three `DashMap` key spaces are modelled as association lists; `String`
keys are their UTF-8 byte sequences (`List Nat`).  `DashMap::get` is a pure
lookup, `DashMap::insert` replaces an existing entry or appends a new one.
Per-key `Mutex` locking always succeeds in the model (lock poisoning is a
runtime condition outside the embedding). -/

/-- `DashMap::get`. -/
def alookup {α : Type} : List (List Nat × α) → List Nat → Option α
  | [], _ => none
  | (k2, v) :: t, k => if k = k2 then some v else alookup t k

/-- `DashMap::insert` / `entry().or_default()` followed by an overwrite. -/
def aupdate {α : Type} : List (List Nat × α) → List Nat → α → List (List Nat × α)
  | [], k, v => [(k, v)]
  | (k2, v2) :: t, k, v =>
      if k = k2 then (k, v) :: t else (k2, v2) :: aupdate t k v

/-- `BackendInner` from `src/backend/mod.rs`: the scalar map, the hash map
and the set map. -/
structure Backend where
  map : List (List Nat × RespFrame)
  hmap : List (List Nat × List (List Nat × RespFrame))
  smap : List (List Nat × List RespFrame)

/-- `Backend::default()`: three empty maps. -/
def Backend.empty : Backend := ⟨[], [], []⟩

/-- The encode-and-compare membership test used by `Backend::sadd` and
`Sismember::execute` (`entry.iter().any(|v| v.clone().encode() == encoded)`). -/
def isMember (entry : List RespFrame) (v : RespFrame) : Bool :=
  entry.any (fun w => encode w == encode v)

/-- The candidate loop in `Backend::sadd`: for each value, append it and
count it only when its encoding is not present in the current list. -/
def saddLoop : List RespFrame → List RespFrame → Nat × List RespFrame
  | entry, [] => (0, entry)
  | entry, v :: vs =>
    if isMember entry v then saddLoop entry vs
    else
      let r := saddLoop (entry ++ [v]) vs
      (r.1 + 1, r.2)

/-- `Backend::get`. -/
def Backend.get (b : Backend) (k : List Nat) : Option RespFrame := alookup b.map k

/-- `Backend::set`. -/
def Backend.set (b : Backend) (k : List Nat) (v : RespFrame) : Backend :=
  { b with map := aupdate b.map k v }

/-- `Backend::hget`. -/
def Backend.hget (b : Backend) (k f : List Nat) : Option RespFrame :=
  (alookup b.hmap k).bind (fun sub => alookup sub f)

/-- `Backend::hset` (`entry().or_default()` then insert the field). -/
def Backend.hset (b : Backend) (k f : List Nat) (v : RespFrame) : Backend :=
  { b with hmap := aupdate b.hmap k (aupdate ((alookup b.hmap k).getD []) f v) }

/-- `Backend::hgetall`. -/
def Backend.hgetall (b : Backend) (k : List Nat) :
    Option (List (List Nat × RespFrame)) := alookup b.hmap k

/-- `Backend::sadd`: `entry().or_default()` creates the per-key list, then
the dedup-scan-append loop runs under the per-key lock. -/
def Backend.sadd (b : Backend) (k : List Nat) (values : List RespFrame) :
    Nat × Backend :=
  let entry := (alookup b.smap k).getD []
  let r := saddLoop entry values
  (r.1, { b with smap := aupdate b.smap k r.2 })

/-! ### Commands (`src/cmd/`)

`String` arguments (keys, fields, the echo message) are kept as their UTF-8
bytes; the `String::from_utf8` validity check is not modelled (a Rust
`String` key is exactly its byte sequence). -/

/-- The `Command` enum from `src/cmd/mod.rs`, each variant holding its
validated arguments (`HGetAll` carries the `sort` flag of the source). -/
inductive Command where
  | echo (message : List Nat)
  | get (key : List Nat)
  | set (key : List Nat) (value : RespFrame)
  | hget (key field : List Nat)
  | hset (key field : List Nat) (value : RespFrame)
  | hgetall (key : List Nat) (sort : Bool)
  | hmget (key : List Nat) (fields : List (List Nat))
  | sadd (key : List Nat) (values : List RespFrame)
  | sismember (key : List Nat) (value : RespFrame)
  | smembers (key : List Nat)
  | unrecognized

/-- `RESP_OK` from `src/cmd/mod.rs`. -/
def RESP_OK : RespFrame := .simpleString (asciiBytes "OK")

/-- The pair order used by `HGetAll::execute`'s
`data.sort_by(|a, b| a.0.cmp(&b.0))`: byte-lexicographic on the field
name. -/
def keyLe (a b : List Nat × RespFrame) : Prop :=
  bytesLt a.1 b.1 = true ∨ a.1 = b.1

/-- Strict version of `keyLe`. -/
def keyLt (a b : List Nat × RespFrame) : Prop := bytesLt a.1 b.1 = true

instance : DecidableRel keyLe := fun a b => by
  unfold keyLe
  infer_instance

/-- `sort_by(|a, b| a.0.cmp(&b.0))`, a stable sort by field name. -/
def sortPairs (l : List (List Nat × RespFrame)) : List (List Nat × RespFrame) :=
  List.insertionSort keyLe l

/-- Flattening of field/value pairs into the alternating reply sequence of
`HGetAll::execute` (`[RespFrame::BulkString(k), v]` per pair). -/
def flattenPairs : List (List Nat × RespFrame) → List RespFrame
  | [] => []
  | (k, v) :: t => .bulkString k :: v :: flattenPairs t

/-- `CommandExecutor::execute` for every `Command` variant, from
`src/cmd/map.rs`, `src/cmd/hmap.rs`, `src/cmd/smap.rs`, `src/cmd/echo.rs`
and `src/cmd/mod.rs` (`Unrecognized`).  The backend is threaded explicitly;
the returned backend is the store after the command's mutation (if any). -/
def executeCmd : Command → Backend → RespFrame × Backend
  | .echo m, b => (.bulkString m, b)
  | .get k, b => ((b.get k).getD .null, b)
  | .set k v, b => (RESP_OK, b.set k v)
  | .hget k f, b => ((b.hget k f).getD .null, b)
  | .hset k f v, b => (RESP_OK, b.hset k f v)
  | .hgetall k sort, b =>
    match b.hgetall k with
    | none => (.array [], b)
    | some all =>
      (.array (flattenPairs (if sort then sortPairs all else all)), b)
  | .hmget k fields, b =>
    match b.hgetall k with
    | none => (.array (fields.map (fun _ => RespFrame.null)), b)
    | some all => (.array (fields.map (fun f => (alookup all f).getD .null)), b)
  | .sadd k values, b =>
    let r := b.sadd k values
    (.integer r.1, r.2)
  | .sismember k v, b =>
    match alookup b.smap k with
    | none => (.integer 0, b)
    | some entry => (.integer (if isMember entry v then 1 else 0), b)
  | .smembers k, b =>
    match alookup b.smap k with
    | none => (.array [], b)
    | some entry => (.array entry, b)
  | .unrecognized, b => (RESP_OK, b)

/-- The `CommandError` enum from `src/cmd/mod.rs` (messages dropped). -/
inductive CommandError where
  | invalidCommand
  | invalidArgument
  | respError
  | fromUtf8Error
  deriving DecidableEq, Repr

/-- The `NArgs` enum from `src/cmd/mod.rs`. -/
inductive NArgs where
  | equal (n : Nat)
  | greaterAndEqual (n : Nat)

/-- `to_ascii_lowercase` on bytes. -/
def toAsciiLowercase (l : List Nat) : List Nat :=
  l.map (fun b => if 65 ≤ b ∧ b ≤ 90 then b + 32 else b)

/-- Is the frame a `BulkString`? -/
def isBulkString : RespFrame → Bool
  | .bulkString _ => true
  | _ => false

/-- The name-token loop of `validate_command`: `value[i]` must be a
`BulkString` whose lowercased bytes equal the expected token. -/
def checkNames (arr : List RespFrame) : List (List Nat) → Nat → Except CommandError Unit
  | [], _ => .ok ()
  | name :: restNames, i =>
    match arr.getD i .null with
    | .bulkString cmd =>
      if toAsciiLowercase cmd ≠ name then .error .invalidArgument
      else checkNames arr restNames (i + 1)
    | _ => .error .invalidArgument

/-- `validate_command` from `src/cmd/mod.rs`: the arity check (exact or
at-least), then the name-token loop. -/
def validateCommand (arr : List RespFrame) (names : List (List Nat))
    (nargs : NArgs) : Except CommandError Unit := do
  match nargs with
  | .equal n =>
    if arr.length ≠ n + 1 then .error .invalidArgument else .ok ()
  | .greaterAndEqual n =>
    if arr.length < n + 1 then .error .invalidArgument else .ok ()
  checkNames arr names 0


/-- `extract_args(value, start)`: the arguments after the command name. -/
def extractArgs (arr : List RespFrame) (start : Nat) : List RespFrame :=
  arr.drop start

/-- `impl TryFrom<RespArray> for Echo` (`src/cmd/echo.rs`). -/
def tryEcho (v : List RespFrame) : Except CommandError Command := do
  validateCommand v [asciiBytes "echo"] (.equal 1)
  match extractArgs v 1 with
  | .bulkString key :: _ => .ok (.echo key)
  | _ => .error .invalidArgument

/-- `impl TryFrom<RespArray> for Get` (`src/cmd/map.rs`). -/
def tryGet (v : List RespFrame) : Except CommandError Command := do
  validateCommand v [asciiBytes "get"] (.equal 1)
  match extractArgs v 1 with
  | .bulkString key :: _ => .ok (.get key)
  | _ => .error .invalidArgument

/-- `impl TryFrom<RespArray> for Set` (`src/cmd/map.rs`). -/
def trySet (v : List RespFrame) : Except CommandError Command := do
  validateCommand v [asciiBytes "set"] (.equal 2)
  match extractArgs v 1 with
  | .bulkString key :: value :: _ => .ok (.set key value)
  | _ => .error .invalidArgument

/-- `impl TryFrom<RespArray> for HGet` (`src/cmd/hmap.rs`). -/
def tryHGet (v : List RespFrame) : Except CommandError Command := do
  validateCommand v [asciiBytes "hget"] (.equal 2)
  match extractArgs v 1 with
  | .bulkString key :: .bulkString field :: _ => .ok (.hget key field)
  | _ => .error .invalidArgument

/-- `impl TryFrom<RespArray> for HSet` (`src/cmd/hmap.rs`). -/
def tryHSet (v : List RespFrame) : Except CommandError Command := do
  validateCommand v [asciiBytes "hset"] (.equal 3)
  match extractArgs v 1 with
  | .bulkString key :: .bulkString field :: value :: _ => .ok (.hset key field value)
  | _ => .error .invalidArgument

/-- `impl TryFrom<RespArray> for HGetAll` (`src/cmd/hmap.rs`); the parsed
command always carries `sort := true`. -/
def tryHGetAll (v : List RespFrame) : Except CommandError Command := do
  validateCommand v [asciiBytes "hgetall"] (.equal 1)
  match extractArgs v 1 with
  | .bulkString key :: _ => .ok (.hgetall key true)
  | _ => .error .invalidArgument

/-- The `while let Some(RespFrame::BulkString(field)) = args.next()` loop of
`impl TryFrom<RespArray> for HMGet` (`src/cmd/hmap.rs`): collection STOPS at
the first non-`BulkString`, silently dropping it and everything after it. -/
def hmgetFields : List RespFrame → List (List Nat)
  | .bulkString f :: t => f :: hmgetFields t
  | _ => []

/-- `impl TryFrom<RespArray> for HMGet` (`src/cmd/hmap.rs`). -/
def tryHMGet (v : List RespFrame) : Except CommandError Command := do
  validateCommand v [asciiBytes "hmget"] (.greaterAndEqual 2)
  match extractArgs v 1 with
  | .bulkString key :: args => .ok (.hmget key (hmgetFields args))
  | _ => .error .invalidArgument

/-- `impl TryFrom<RespArray> for SAdd` (`src/cmd/smap.rs`): every frame
after the key is accepted as a candidate value. -/
def trySAdd (v : List RespFrame) : Except CommandError Command := do
  validateCommand v [asciiBytes "sadd"] (.greaterAndEqual 2)
  match extractArgs v 1 with
  | .bulkString key :: values => .ok (.sadd key values)
  | _ => .error .invalidArgument

/-- `impl TryFrom<RespArray> for Sismember` (`src/cmd/smap.rs`). -/
def trySismember (v : List RespFrame) : Except CommandError Command := do
  validateCommand v [asciiBytes "sismember"] (.equal 2)
  match extractArgs v 1 with
  | .bulkString key :: value :: _ => .ok (.sismember key value)
  | _ => .error .invalidArgument

/-- `impl TryFrom<RespArray> for SMembers` (`src/cmd/smap.rs`). -/
def trySMembers (v : List RespFrame) : Except CommandError Command := do
  validateCommand v [asciiBytes "smembers"] (.equal 1)
  match extractArgs v 1 with
  | .bulkString key :: _ => .ok (.smembers key)
  | _ => .error .invalidArgument

/-- `impl TryFrom<RespArray> for Command` (`src/cmd/mod.rs` lines 144-167):
dispatch on the EXACT bytes of the first `BulkString` against the lowercase
literals (`b"echo"`, `b"get"`, …); any other byte string — including an
uppercase spelling of a known command — falls through to `Unrecognized`.  A
first element that is not a `BulkString` (or an empty array) is an
`InvalidCommand` error. -/
def tryCommandFromArray (v : List RespFrame) : Except CommandError Command :=
  match v.head? with
  | some (.bulkString cmd) =>
    if cmd = asciiBytes "echo" then tryEcho v
    else if cmd = asciiBytes "get" then tryGet v
    else if cmd = asciiBytes "set" then trySet v
    else if cmd = asciiBytes "hget" then tryHGet v
    else if cmd = asciiBytes "hset" then tryHSet v
    else if cmd = asciiBytes "hgetall" then tryHGetAll v
    else if cmd = asciiBytes "hmget" then tryHMGet v
    else if cmd = asciiBytes "sadd" then trySAdd v
    else if cmd = asciiBytes "sismember" then trySismember v
    else if cmd = asciiBytes "smembers" then trySMembers v
    else .ok .unrecognized
  | _ => .error .invalidCommand

/-- `impl TryFrom<RespFrame> for Command` (`src/cmd/mod.rs` lines 131-142):
the request frame must be an `Array`. -/
def tryCommandFromFrame : RespFrame → Except CommandError Command
  | .array arr => tryCommandFromArray arr
  | _ => .error .invalidCommand


/-! ### Properties of the set-type loop -/

theorem isMember_append (a b : List RespFrame) (v : RespFrame) :
    isMember (a ++ b) v = (isMember a v || isMember b v) := by
  rw [isMember, isMember, isMember, List.any_append]

/-- Structure of one `Backend::sadd` pass: the original list is preserved as
a prefix; the appended values are exactly counted by the returned integer;
each appended value is a candidate that was absent (by encoding) from the
original list; no two appended values share an encoding; and afterwards
every candidate is a member. -/
theorem saddLoop_structure : ∀ (values entry : List RespFrame),
    ∃ Δ : List RespFrame,
      (saddLoop entry values).2 = entry ++ Δ ∧
      Δ.length = (saddLoop entry values).1 ∧
      (∀ w ∈ Δ, w ∈ values ∧ isMember entry w = false) ∧
      (Δ.map encode).Nodup ∧
      (∀ v ∈ values, isMember (saddLoop entry values).2 v = true) := by
  intro values
  induction values with
  | nil =>
    intro entry
    exact ⟨[], by simp [saddLoop], by simp [saddLoop], by simp, by simp, by simp⟩
  | cons v vs ih =>
    intro entry
    by_cases hm : isMember entry v = true
    · obtain ⟨Δ, h1, h2, h3, h4, h5⟩ := ih entry
      have heq : saddLoop entry (v :: vs) = saddLoop entry vs := by
        rw [saddLoop, if_pos hm]
      refine ⟨Δ, by rw [heq]; exact h1, by rw [heq]; exact h2, ?_, h4, ?_⟩
      · intro w hw
        exact ⟨List.mem_cons_of_mem v (h3 w hw).1, (h3 w hw).2⟩
      · intro u hu
        rcases List.mem_cons.1 hu with h | h
        · subst h
          rw [heq, h1, isMember_append, hm]
          rfl
        · rw [heq]
          exact h5 u h
    · have hm' : isMember entry v = false := by
        cases h : isMember entry v
        · rfl
        · exact absurd h hm
      obtain ⟨Δ, h1, h2, h3, h4, h5⟩ := ih (entry ++ [v])
      have heq : saddLoop entry (v :: vs) =
          ((saddLoop (entry ++ [v]) vs).1 + 1, (saddLoop (entry ++ [v]) vs).2) := by
        rw [saddLoop, if_neg (by rw [hm']; simp)]
      have hvm : isMember [v] v = true := by
        rw [isMember]
        simp
      refine ⟨v :: Δ, ?_, ?_, ?_, ?_, ?_⟩
      · rw [heq]
        simpa using h1
      · rw [heq]
        simpa using h2
      · intro w hw
        rcases List.mem_cons.1 hw with rfl | h
        · exact ⟨List.mem_cons_self w vs, hm'⟩
        · obtain ⟨hw1, hw2⟩ := h3 w h
          rw [isMember_append] at hw2
          simp only [Bool.or_eq_false_iff] at hw2
          exact ⟨List.mem_cons_of_mem v hw1, hw2.1⟩
      · rw [List.map_cons]
        refine List.Pairwise.cons ?_ h4
        intro e he
        simp only [List.mem_map] at he
        obtain ⟨w, hw, rfl⟩ := he
        have hw2 := (h3 w hw).2
        rw [isMember_append] at hw2
        simp only [Bool.or_eq_false_iff] at hw2
        have h7 := hw2.2
        rw [isMember] at h7
        simp only [List.any_cons, List.any_nil, Bool.or_false, beq_eq_false_iff_ne,
          ne_eq] at h7
        intro hc
        exact h7 hc
      · intro u hu
        rcases List.mem_cons.1 hu with rfl | h
        · rw [heq]
          show isMember (saddLoop (entry ++ [u]) vs).2 u = true
          rw [h1, isMember_append, isMember_append, hvm]
          simp
        · rw [heq]
          exact h5 u h

/-- Re-adding a value already present (by encoding) returns 0 and leaves
the per-key list untouched. -/
theorem saddLoop_idempotent (entry : List RespFrame) (v : RespFrame)
    (hm : isMember entry v = true) : saddLoop entry [v] = (0, entry) := by
  rw [saddLoop, if_pos hm, saddLoop]

/-! ### Determinism of the sorted hash flattening -/

theorem bytesLt_total : ∀ a b : List Nat,
    bytesLt a b = true ∨ bytesLt b a = true ∨ a = b := by
  intro a
  induction a with
  | nil =>
    intro b
    cases b with
    | nil => right; right; rfl
    | cons y u => left; rfl
  | cons x t ih =>
    intro b
    cases b with
    | nil => right; left; rfl
    | cons y u =>
      by_cases hxy : x < y
      · left
        rw [bytesLt, if_pos hxy]
      · by_cases hyx : y < x
        · right; left
          rw [bytesLt, if_pos hyx]
        · have hxy2 : x = y := by omega
          subst hxy2
          rcases ih u with h | h | h
          · left
            rw [bytesLt, if_neg (by omega), if_neg (by omega)]
            exact h
          · right; left
            rw [bytesLt, if_neg (by omega), if_neg (by omega)]
            exact h
          · right; right
            rw [h]

instance : IsTotal (List Nat × RespFrame) keyLe where
  total := by
    intro a b
    rcases bytesLt_total a.1 b.1 with h | h | h
    · exact Or.inl (Or.inl h)
    · exact Or.inr (Or.inl h)
    · exact Or.inl (Or.inr h)

instance : IsTrans (List Nat × RespFrame) keyLe where
  trans := by
    intro a b c hab hbc
    rcases hab with hab | hab <;> rcases hbc with hbc | hbc
    · exact Or.inl (bytesLt_trans _ _ _ hab hbc)
    · exact Or.inl (hbc ▸ hab)
    · exact Or.inl (hab ▸ hbc)
    · exact Or.inr (hab.trans hbc)

instance : IsAntisymm (List Nat × RespFrame) keyLt where
  antisymm := by
    intro a b h1 h2
    have := bytesLt_asymm a.1 b.1 h1
    rw [keyLt, this] at h2
    cases h2

theorem sortPairs_sorted (l : List (List Nat × RespFrame)) :
    List.Sorted keyLe (sortPairs l) :=
  List.sorted_insertionSort keyLe l

theorem sortPairs_perm (l : List (List Nat × RespFrame)) :
    (sortPairs l).Perm l :=
  List.perm_insertionSort keyLe l

theorem sorted_keyLt_of_nodup (l : List (List Nat × RespFrame))
    (hs : List.Sorted keyLe l) (hn : (l.map Prod.fst).Nodup) :
    List.Sorted keyLt l := by
  have hp : l.Pairwise (fun a b => a.1 ≠ b.1) := List.pairwise_map.1 hn
  refine (hs.and hp).imp ?_
  intro a b hab
  rcases hab.1 with h | h
  · exact h
  · exact absurd h hab.2

/-- Two association lists holding the same field/value pairs (in any order)
with pairwise-distinct field names sort to the same list: the hash-map
iteration order does not affect the `HGetAll` reply. -/
theorem sortPairs_deterministic (l₁ l₂ : List (List Nat × RespFrame))
    (hperm : l₁.Perm l₂) (hn : (l₁.map Prod.fst).Nodup) :
    sortPairs l₁ = sortPairs l₂ := by
  have hn₁ : ((sortPairs l₁).map Prod.fst).Nodup :=
    (((sortPairs_perm l₁).map Prod.fst).symm).nodup hn
  have hn₂ : ((sortPairs l₂).map Prod.fst).Nodup :=
    (((sortPairs_perm l₂).map Prod.fst).symm).nodup ((hperm.map Prod.fst).nodup hn)
  refine List.eq_of_perm_of_sorted
    (((sortPairs_perm l₁).trans hperm).trans (sortPairs_perm l₂).symm)
    (sorted_keyLt_of_nodup _ (sortPairs_sorted l₁) hn₁)
    (sorted_keyLt_of_nodup _ (sortPairs_sorted l₂) hn₂)


/-! ## Claim theorems -/

/-- Claim C1, counterexample: the encoder maps the absent/empty `BulkString`
and `Array` to the sentinels `$-1\r\n` / `*-1\r\n`, but the decoder parses
the length with `usize::from_str`, so `-1` is a `ParseIntError` — the
round-trip `decode(encode f) = f` fails at the sentinel values. -/
theorem sentinel_roundtrip_fails :
    encode (.bulkString []) = asciiBytes "$-1\r\n" ∧
    decodeFrame (encode (.bulkString [])) = .err .parseIntError ∧
    encode (.array []) = asciiBytes "*-1\r\n" ∧
    decodeFrame (encode (.array [])) = .err .parseIntError :=
  ⟨rfl, rfl, rfl, rfl⟩

/-- Claim C1 (amended): for every legal frame in which every `BulkString`
and `Array` is nonempty, decoding the encoding returns the frame (with an
empty remaining buffer); the absent-value sentinels themselves do not
round-trip (see the counterexample). -/
theorem roundtrip_legal_sentinel_free (f : RespFrame) (h1 : legal f = true)
    (h2 : sentinelFree f = true) : decodeFrame (encode f) = .ok (f, []) := by
  have h := decodeFrame_encode f h1 h2 []
  rwa [List.append_nil] at h

/-- Witness for C1's amended theorem at the repository's own test frame
`*3\r\n$3\r\nset\r\n$5\r\nhello\r\n$5\r\nworld\r\n`. -/
theorem roundtrip_legal_sentinel_free_witness :
    legal (RespFrame.array [.bulkString (asciiBytes "set"),
      .bulkString (asciiBytes "hello"), .bulkString (asciiBytes "world")]) = true ∧
    sentinelFree (RespFrame.array [.bulkString (asciiBytes "set"),
      .bulkString (asciiBytes "hello"), .bulkString (asciiBytes "world")]) = true ∧
    decodeFrame (encode (RespFrame.array [.bulkString (asciiBytes "set"),
      .bulkString (asciiBytes "hello"), .bulkString (asciiBytes "world")])) =
      .ok (RespFrame.array [.bulkString (asciiBytes "set"),
        .bulkString (asciiBytes "hello"), .bulkString (asciiBytes "world")], []) :=
  ⟨rfl, rfl, roundtrip_legal_sentinel_free _ rfl rfl⟩

/-- Claim C2: decoding the 18-byte strict prefix of the 23-byte encoding of
`Array [BulkString "hello world!"]` PANICS instead of reporting "not
complete": `calc_total_length` computes the child's expected length (19)
from its header and then slices `&data[19..]` out of the 14 remaining
bytes, an out-of-range slice index. -/
theorem partial_array_decode_panics :
    (encode (.array [.bulkString (asciiBytes "hello world!")])).length = 23 ∧
    decodeFrame ((encode (.array [.bulkString (asciiBytes "hello world!")])).take 18) =
      .panic :=
  ⟨rfl, rfl⟩

/-- Claim C3: `SAdd`/`SIsMember` membership is decided by comparing
canonical encodings: a singleton set containing `a` has `b` as a member
exactly when `encode a = encode b`; equal encodings give identical
membership answers and `SAdd` counts; and concretely
`BulkString "two"` and `SimpleString "two"` are distinct members. -/
theorem set_member_identity :
    (∀ a b : RespFrame, isMember [a] b = true ↔ encode a = encode b) ∧
    (∀ (entry : List RespFrame) (a b : RespFrame), encode a = encode b →
      isMember entry a = isMember entry b ∧
      (saddLoop entry [a]).1 = (saddLoop entry [b]).1) ∧
    (executeCmd (.sismember (asciiBytes "s") (.simpleString (asciiBytes "two")))
      (executeCmd (.sadd (asciiBytes "s") [.bulkString (asciiBytes "two")])
        Backend.empty).2).1 = .integer 0 ∧
    (executeCmd (.sismember (asciiBytes "s") (.bulkString (asciiBytes "two")))
      (executeCmd (.sadd (asciiBytes "s") [.bulkString (asciiBytes "two")])
        Backend.empty).2).1 = .integer 1 := by
  refine ⟨?_, ?_, rfl, rfl⟩
  · intro a b
    rw [isMember]
    simp only [List.any_cons, List.any_nil, Bool.or_false, beq_iff_eq]
  · intro entry a b h
    have hmem : isMember entry a = isMember entry b := by
      rw [isMember, isMember, h]
    refine ⟨hmem, ?_⟩
    cases hx : isMember entry b
    · simp [saddLoop, hmem, hx]
    · simp [saddLoop, hmem, hx]

/-- Witness for C3 at a concrete member. -/
theorem set_member_identity_witness :
    isMember [RespFrame.bulkString (asciiBytes "x")]
      (RespFrame.bulkString (asciiBytes "x")) = true :=
  (set_member_identity.1 (.bulkString (asciiBytes "x"))
    (.bulkString (asciiBytes "x"))).2 rfl

/-- Claim C4: one `SAdd` pass appends exactly the candidates whose encoding
was not yet present, in order, counts exactly those, and leaves the
existing list untouched as a prefix; re-adding a present value returns 0
and changes nothing; the `SAdd` executor replies with that count. -/
theorem sadd_counts_new_values :
    (∀ (entry values : List RespFrame),
      ∃ Δ : List RespFrame,
        (saddLoop entry values).2 = entry ++ Δ ∧
        Δ.length = (saddLoop entry values).1 ∧
        (∀ w ∈ Δ, w ∈ values ∧ isMember entry w = false) ∧
        (Δ.map encode).Nodup ∧
        (∀ v ∈ values, isMember (saddLoop entry values).2 v = true)) ∧
    (∀ (entry : List RespFrame) (v : RespFrame), isMember entry v = true →
      saddLoop entry [v] = (0, entry)) ∧
    (∀ (b : Backend) (k : List Nat) (values : List RespFrame),
      (executeCmd (.sadd k values) b).1 =
        .integer (saddLoop ((alookup b.smap k).getD []) values).1) :=
  ⟨fun entry values => saddLoop_structure values entry,
   saddLoop_idempotent,
   fun _ _ _ => rfl⟩

/-- Witness for C4: re-adding `"one"` to a set already containing it
returns 0 and leaves the list unchanged. -/
theorem sadd_counts_new_values_witness :
    saddLoop [RespFrame.bulkString (asciiBytes "one")]
      [RespFrame.bulkString (asciiBytes "one")] =
      (0, [RespFrame.bulkString (asciiBytes "one")]) :=
  sadd_counts_new_values.2.1 _ _ rfl

/-- Claim C5: the command dispatch in `impl TryFrom<RespArray> for Command`
matches the first `BulkString`'s EXACT bytes against lowercase literals, so
the uppercase spelling `GET` of a known command is classified as
`Unrecognized` — even though `validate_command` lowercases name tokens and
the per-command `TryFrom` implementations (exercised with uppercase `ECHO`
and `SADD` by the repository's own tests) accept uppercase names. -/
theorem uppercase_command_dispatch_mismatch :
    tryCommandFromFrame (.array [.bulkString (asciiBytes "GET"),
      .bulkString (asciiBytes "key")]) = .ok .unrecognized ∧
    tryCommandFromFrame (.array [.bulkString (asciiBytes "get"),
      .bulkString (asciiBytes "key")]) = .ok (.get (asciiBytes "key")) ∧
    tryEcho [.bulkString (asciiBytes "ECHO"), .bulkString (asciiBytes "hello")] =
      .ok (.echo (asciiBytes "hello")) ∧
    toAsciiLowercase (asciiBytes "GET") = asciiBytes "get" :=
  ⟨rfl, rfl, rfl, rfl⟩


/-- `extract_simple_frame_data` reports `NotComplete` only when the buffer
is shorter than three bytes or the CRLF terminator has not arrived. -/
theorem extractSimple_notComplete (buf : List Nat) (p : Nat)
    (h : extractSimpleFrameData buf p = .error .notComplete) :
    buf.length < 3 ∨ findCrlf buf 1 = none := by
  rw [extractSimpleFrameData] at h
  by_cases h1 : buf.length < 3
  · exact Or.inl h1
  · rw [if_neg h1] at h
    by_cases h2 : buf.head? ≠ some p
    · rw [if_pos h2] at h
      cases h
    · rw [if_neg h2] at h
      cases h3 : findCrlf buf 1 with
      | none => exact Or.inr rfl
      | some e2 =>
        rw [h3] at h
        cases h

/-- Claim C6, counterexample: the respv2 length probe reports even
permanently malformed input — an unknown prefix byte `x`, a non-numeric
bulk-string length — as `NotComplete` rather than as a permanent parse
error. -/
theorem respv2_malformed_reports_not_complete :
    parseFrameLength (asciiBytes "x\r\n") = .error .notComplete ∧
    parseFrameLength (asciiBytes "$abc\r\n") = .error .notComplete :=
  ⟨rfl, rfl⟩

/-- Claim C6 (amended): in the `resp` (v1) codec, `parse_length` returns
`NotComplete` only for insufficient bytes (a buffer shorter than three
bytes or a missing CRLF terminator) — malformed lengths are
`ParseIntError` and wrong prefixes `InvalidFrameType`; the respv2 length
probe `parse_frame_length`, however, maps EVERY failure, permanent ones
included, to `NotComplete`. -/
theorem decode_error_taxonomy :
    (∀ (buf : List Nat) (p : Nat), parseLength buf p = .error .notComplete →
      buf.length < 3 ∨ findCrlf buf 1 = none) ∧
    (∀ (buf : List Nat) (e : RespError), parseFrameLength buf = .error e →
      e = .notComplete) := by
  constructor
  · intro buf p h
    revert h
    rw [parseLength]
    cases hx : extractSimpleFrameData buf p with
    | error e =>
      show (Except.error e : Except RespError (Nat × Nat)) = .error .notComplete → _
      intro h
      injection h with h2
      subst h2
      exact extractSimple_notComplete buf p hx
    | ok v =>
      show (match parseUsize ((buf.take v).drop 1) with
        | none => (.error .parseIntError : Except RespError (Nat × Nat))
        | some n => .ok (v, n)) = .error .notComplete → _
      cases hp : parseUsize ((buf.take v).drop 1) with
      | none =>
        intro h
        cases h
      | some n =>
        intro h
        cases h
  · intro buf e h
    rw [parseFrameLength] at h
    cases hx : parseFrameLenF (buf.length + 1) buf with
    | none =>
      rw [hx] at h
      injection h with h2
      exact h2.symm
    | some r =>
      rw [hx] at h
      cases h

/-- Witness for C6's amended theorem: a two-byte buffer is `NotComplete`
and indeed shorter than three bytes; and the malformed respv2 input from
the counterexample yields a `NotComplete`-classified error. -/
theorem decode_error_taxonomy_witness :
    ((asciiBytes "$1").length < 3 ∨ findCrlf (asciiBytes "$1") 1 = none) ∧
    RespError.notComplete = RespError.notComplete :=
  ⟨decode_error_taxonomy.1 (asciiBytes "$1") 36 rfl,
   decode_error_taxonomy.2 (asciiBytes "x\r\n") RespError.notComplete rfl⟩

/-- Claim C7: `HGetAll` on an absent key replies with an empty `Array`; on
a present key it replies with the field/value pairs sorted
byte-lexicographically by field name and flattened into an alternating
sequence (the parsed command always carries `sort = true`); the sorted
output does not depend on the hash map's iteration order, so two calls
without intervening writes return the same reply. -/
theorem hgetall_sorted_deterministic :
    (∀ (b : Backend) (k : List Nat), b.hgetall k = none →
      executeCmd (.hgetall k true) b = (.array [], b)) ∧
    (∀ (b : Backend) (k : List Nat) (all : List (List Nat × RespFrame)),
      b.hgetall k = some all →
      executeCmd (.hgetall k true) b = (.array (flattenPairs (sortPairs all)), b) ∧
      List.Sorted keyLe (sortPairs all) ∧ (sortPairs all).Perm all) ∧
    (∀ l₁ l₂ : List (List Nat × RespFrame), l₁.Perm l₂ →
      (l₁.map Prod.fst).Nodup →
      flattenPairs (sortPairs l₁) = flattenPairs (sortPairs l₂)) := by
  refine ⟨?_, ?_, ?_⟩
  · intro b k h
    show (match b.hgetall k with
      | none => ((.array [] : RespFrame), b)
      | some all => (.array (flattenPairs (if true then sortPairs all else all)), b)) = _
    rw [h]
  · intro b k all h
    refine ⟨?_, sortPairs_sorted all, sortPairs_perm all⟩
    show (match b.hgetall k with
      | none => ((.array [] : RespFrame), b)
      | some all => (.array (flattenPairs (if true then sortPairs all else all)), b)) = _
    rw [h]
    rfl
  · intro l₁ l₂ hp hn
    rw [sortPairs_deterministic l₁ l₂ hp hn]

/-- Witness for C7 on a concrete two-field hash, stored in both insertion
orders. -/
theorem hgetall_sorted_deterministic_witness :
    executeCmd (.hgetall (asciiBytes "m") true)
      ⟨[], [(asciiBytes "m", [(asciiBytes "hello", .bulkString (asciiBytes "world")),
        (asciiBytes "foo", .bulkString (asciiBytes "bar"))])], []⟩ =
      (.array (flattenPairs (sortPairs
        [(asciiBytes "hello", .bulkString (asciiBytes "world")),
         (asciiBytes "foo", .bulkString (asciiBytes "bar"))])),
       ⟨[], [(asciiBytes "m", [(asciiBytes "hello", .bulkString (asciiBytes "world")),
        (asciiBytes "foo", .bulkString (asciiBytes "bar"))])], []⟩) ∧
    flattenPairs (sortPairs
      [(asciiBytes "hello", .bulkString (asciiBytes "world")),
       (asciiBytes "foo", .bulkString (asciiBytes "bar"))]) =
      flattenPairs (sortPairs
        [(asciiBytes "foo", .bulkString (asciiBytes "bar")),
         (asciiBytes "hello", .bulkString (asciiBytes "world"))]) :=
  ⟨((hgetall_sorted_deterministic.2.1
      ⟨[], [(asciiBytes "m", [(asciiBytes "hello", .bulkString (asciiBytes "world")),
        (asciiBytes "foo", .bulkString (asciiBytes "bar"))])], []⟩
      (asciiBytes "m")
      [(asciiBytes "hello", .bulkString (asciiBytes "world")),
       (asciiBytes "foo", .bulkString (asciiBytes "bar"))] rfl).1),
   hgetall_sorted_deterministic.2.2 _ _ (List.Perm.swap _ _ _) (by decide)⟩

/-- Claim C8, counterexample: `HMGet` parsing does NOT fail on a
non-`BulkString` field — the `while let` loop stops silently, constructing
the command with the offending argument and every later field dropped. -/
theorem hmget_drops_non_bulkstring_field :
    tryCommandFromFrame (.array [.bulkString (asciiBytes "hmget"),
      .bulkString (asciiBytes "key"), .bulkString (asciiBytes "f1"),
      .integer 5, .bulkString (asciiBytes "f2")]) =
      .ok (.hmget (asciiBytes "key") [asciiBytes "f1"]) := rfl

/-- The `while let` field collection of `HMGet` stops at the first
non-`BulkString`. -/
theorem hmgetFields_stops (pre : List (List Nat)) (w : RespFrame)
    (post : List RespFrame) (hw : isBulkString w = false) :
    hmgetFields (pre.map RespFrame.bulkString ++ w :: post) = pre := by
  induction pre with
  | nil =>
    cases w with
    | bulkString b => rw [isBulkString] at hw; cases hw
    | simpleString s => rfl
    | error s => rfl
    | integer i => rfl
    | null => rfl
    | array l => rfl
    | boolean b => rfl
    | double d => rfl
    | map ps => rfl
    | set l => rfl
  | cons p t ih =>
    rw [List.map_cons, List.cons_append, hmgetFields, ih]

/-- Claim C8 (amended): a non-`BulkString` in ANY fixed textual position
is rejected with an argument-type error — `Echo`'s message, `Get`'s key,
`Set`'s key, both `HGet` positions, `HSet`'s key and field, `HGetAll`'s
key, `HMGet`'s key, `SAdd`'s key, `Sismember`'s key and `SMembers`'s key;
but in `HMGet`'s variadic field list a non-`BulkString` is NOT an error:
the field loop stops there and the command is constructed with that
argument and all later fields silently dropped. -/
theorem non_bulkstring_argument_type_error :
    (∀ w : RespFrame, isBulkString w = false →
      tryEcho [.bulkString (asciiBytes "echo"), w] = .error .invalidArgument) ∧
    (∀ w : RespFrame, isBulkString w = false →
      tryGet [.bulkString (asciiBytes "get"), w] = .error .invalidArgument) ∧
    (∀ (w v : RespFrame), isBulkString w = false →
      trySet [.bulkString (asciiBytes "set"), w, v] = .error .invalidArgument) ∧
    (∀ w : RespFrame, isBulkString w = false →
      tryHGet [.bulkString (asciiBytes "hget"), w, .bulkString (asciiBytes "f")] =
        .error .invalidArgument) ∧
    (∀ w : RespFrame, isBulkString w = false →
      tryHGet [.bulkString (asciiBytes "hget"), .bulkString (asciiBytes "k"), w] =
        .error .invalidArgument) ∧
    (∀ (w v : RespFrame), isBulkString w = false →
      tryHSet [.bulkString (asciiBytes "hset"), w, .bulkString (asciiBytes "f"), v] =
        .error .invalidArgument) ∧
    (∀ (w v : RespFrame), isBulkString w = false →
      tryHSet [.bulkString (asciiBytes "hset"), .bulkString (asciiBytes "k"), w, v] =
        .error .invalidArgument) ∧
    (∀ w : RespFrame, isBulkString w = false →
      tryHGetAll [.bulkString (asciiBytes "hgetall"), w] = .error .invalidArgument) ∧
    (∀ w : RespFrame, isBulkString w = false →
      tryHMGet [.bulkString (asciiBytes "hmget"), w, .bulkString (asciiBytes "f")] =
        .error .invalidArgument) ∧
    (∀ (w v : RespFrame), isBulkString w = false →
      trySAdd [.bulkString (asciiBytes "sadd"), w, v] = .error .invalidArgument) ∧
    (∀ (w v : RespFrame), isBulkString w = false →
      trySismember [.bulkString (asciiBytes "sismember"), w, v] =
        .error .invalidArgument) ∧
    (∀ w : RespFrame, isBulkString w = false →
      trySMembers [.bulkString (asciiBytes "smembers"), w] = .error .invalidArgument) ∧
    (∀ (key : List Nat) (pre : List (List Nat)) (w : RespFrame)
        (post : List RespFrame), isBulkString w = false →
      tryHMGet (.bulkString (asciiBytes "hmget") :: .bulkString key ::
          (pre.map RespFrame.bulkString ++ w :: post)) =
        .ok (.hmget key pre)) := by
  refine ⟨?_, ?_, ?_, ?_, ?_, ?_, ?_, ?_, ?_, ?_, ?_, ?_, ?_⟩
  · intro w hw
    cases w <;> first
      | rfl
      | (rw [isBulkString] at hw; cases hw)
  · intro w hw
    cases w <;> first
      | rfl
      | (rw [isBulkString] at hw; cases hw)
  · intro w v hw
    cases w <;> first
      | rfl
      | (rw [isBulkString] at hw; cases hw)
  · intro w hw
    cases w <;> first
      | rfl
      | (rw [isBulkString] at hw; cases hw)
  · intro w hw
    cases w <;> first
      | rfl
      | (rw [isBulkString] at hw; cases hw)
  · intro w v hw
    cases w <;> first
      | rfl
      | (rw [isBulkString] at hw; cases hw)
  · intro w v hw
    cases w <;> first
      | rfl
      | (rw [isBulkString] at hw; cases hw)
  · intro w hw
    cases w <;> first
      | rfl
      | (rw [isBulkString] at hw; cases hw)
  · intro w hw
    cases w <;> first
      | rfl
      | (rw [isBulkString] at hw; cases hw)
  · intro w v hw
    cases w <;> first
      | rfl
      | (rw [isBulkString] at hw; cases hw)
  · intro w v hw
    cases w <;> first
      | rfl
      | (rw [isBulkString] at hw; cases hw)
  · intro w hw
    cases w <;> first
      | rfl
      | (rw [isBulkString] at hw; cases hw)
  · intro key pre w post hw
    have hlen : ¬ ((RespFrame.bulkString (asciiBytes "hmget") :: .bulkString key ::
        (pre.map RespFrame.bulkString ++ w :: post)).length < 2 + 1) := by
      simp only [List.length_cons, List.length_append, List.length_map]
      omega
    have hval : validateCommand (.bulkString (asciiBytes "hmget") :: .bulkString key ::
        (pre.map RespFrame.bulkString ++ w :: post)) [asciiBytes "hmget"]
        (.greaterAndEqual 2) = .ok () := by
      rw [validateCommand]
      rw [if_neg hlen]
      rfl
    rw [tryHMGet, hval]
    show Except.ok (Command.hmget key
        (hmgetFields (pre.map RespFrame.bulkString ++ w :: post))) =
      Except.ok (Command.hmget key pre)
    rw [hmgetFields_stops pre w post hw]

/-- Witness for the C8 amendment: an `Integer` in `Echo`'s message, `Get`'s
key, `Set`'s key and `HSet`'s field position is rejected, while an
`Integer` in `HMGet`'s second field position is silently dropped together
with the field after it. -/
theorem non_bulkstring_argument_type_error_witness :
    tryEcho [.bulkString (asciiBytes "echo"), .integer 7] =
      .error .invalidArgument ∧
    tryGet [.bulkString (asciiBytes "get"), .integer 7] =
      .error .invalidArgument ∧
    trySet [.bulkString (asciiBytes "set"), .integer 7,
        .bulkString (asciiBytes "v")] = .error .invalidArgument ∧
    tryHSet [.bulkString (asciiBytes "hset"), .bulkString (asciiBytes "k"),
        .integer 7, .bulkString (asciiBytes "v")] = .error .invalidArgument ∧
    tryHMGet (.bulkString (asciiBytes "hmget") :: .bulkString (asciiBytes "k") ::
        ([asciiBytes "f1"].map RespFrame.bulkString ++
          RespFrame.integer 5 :: [.bulkString (asciiBytes "f2")])) =
      .ok (.hmget (asciiBytes "k") [asciiBytes "f1"]) :=
  ⟨non_bulkstring_argument_type_error.1 (.integer 7) rfl,
   non_bulkstring_argument_type_error.2.1 (.integer 7) rfl,
   non_bulkstring_argument_type_error.2.2.1 (.integer 7)
     (.bulkString (asciiBytes "v")) rfl,
   non_bulkstring_argument_type_error.2.2.2.2.2.2.1 (.integer 7)
     (.bulkString (asciiBytes "v")) rfl,
   non_bulkstring_argument_type_error.2.2.2.2.2.2.2.2.2.2.2.2
     (asciiBytes "k") [asciiBytes "f1"]
     (.integer 5) [.bulkString (asciiBytes "f2")] rfl⟩

/-- The ten literal byte strings the `Command` dispatch recognises
(`src/cmd/mod.rs` lines 144-167). -/
def knownCommandNames : List (List Nat) :=
  [asciiBytes "echo", asciiBytes "get", asciiBytes "set", asciiBytes "hget",
   asciiBytes "hset", asciiBytes "hgetall", asciiBytes "hmget",
   asciiBytes "sadd", asciiBytes "sismember", asciiBytes "smembers"]

/-- Claim C9: an Array whose first element is a `BulkString` naming no
known command parses to `Unrecognized`, which touches no store and replies
`+OK\r\n`; an Array whose first element is not a `BulkString` — or an empty
Array — is rejected with `InvalidCommand`. -/
theorem unknown_command_maps_to_unrecognized :
    (∀ (cmd : List Nat) (rest : List RespFrame),
      cmd ∉ knownCommandNames →
      tryCommandFromArray (.bulkString cmd :: rest) = .ok .unrecognized) ∧
    (∀ b : Backend, executeCmd .unrecognized b = (RESP_OK, b)) ∧
    (∀ (w : RespFrame) (rest : List RespFrame), isBulkString w = false →
      tryCommandFromArray (w :: rest) = .error .invalidCommand) ∧
    tryCommandFromArray [] = .error .invalidCommand := by
  refine ⟨?_, ?_, ?_, rfl⟩
  · intro cmd rest h
    simp only [knownCommandNames, List.mem_cons, List.not_mem_nil,
      or_false, not_or] at h
    obtain ⟨h1, h2, h3, h4, h5, h6, h7, h8, h9, h10⟩ := h
    show (if cmd = asciiBytes "echo" then tryEcho (.bulkString cmd :: rest)
      else if cmd = asciiBytes "get" then tryGet (.bulkString cmd :: rest)
      else if cmd = asciiBytes "set" then trySet (.bulkString cmd :: rest)
      else if cmd = asciiBytes "hget" then tryHGet (.bulkString cmd :: rest)
      else if cmd = asciiBytes "hset" then tryHSet (.bulkString cmd :: rest)
      else if cmd = asciiBytes "hgetall" then tryHGetAll (.bulkString cmd :: rest)
      else if cmd = asciiBytes "hmget" then tryHMGet (.bulkString cmd :: rest)
      else if cmd = asciiBytes "sadd" then trySAdd (.bulkString cmd :: rest)
      else if cmd = asciiBytes "sismember" then trySismember (.bulkString cmd :: rest)
      else if cmd = asciiBytes "smembers" then trySMembers (.bulkString cmd :: rest)
      else .ok .unrecognized) = .ok .unrecognized
    rw [if_neg h1, if_neg h2, if_neg h3, if_neg h4, if_neg h5, if_neg h6,
      if_neg h7, if_neg h8, if_neg h9, if_neg h10]
  · intro b
    rfl
  · intro w rest hw
    cases w <;> first
      | rfl
      | (rw [isBulkString] at hw; cases hw)

/-- Witness for C9: the unknown name `foo` yields `Unrecognized` and the
acknowledgment reply, while an `Integer` head is an `InvalidCommand`. -/
theorem unknown_command_maps_to_unrecognized_witness :
    tryCommandFromArray [.bulkString (asciiBytes "foo")] = .ok .unrecognized ∧
    executeCmd .unrecognized Backend.empty = (RESP_OK, Backend.empty) ∧
    tryCommandFromArray [.integer 1] = .error .invalidCommand :=
  ⟨unknown_command_maps_to_unrecognized.1 (asciiBytes "foo") [] (by decide),
   unknown_command_maps_to_unrecognized.2.1 Backend.empty,
   unknown_command_maps_to_unrecognized.2.2.1 (.integer 1) [] rfl⟩

/-- Claim C10: every read-only executor (`Echo`, `Get`, `HGet`, `HGetAll`,
`HMGet`, `SIsMember`, `SMembers`, `Unrecognized`) returns the backend
unchanged — in particular querying an absent key never creates it in any of
the three key spaces. -/
theorem readonly_commands_preserve_backend :
    ∀ (b : Backend) (m k f : List Nat) (fs : List (List Nat)) (v : RespFrame)
      (srt : Bool),
      (executeCmd (.echo m) b).2 = b ∧
      (executeCmd (.get k) b).2 = b ∧
      (executeCmd (.hget k f) b).2 = b ∧
      (executeCmd (.hgetall k srt) b).2 = b ∧
      (executeCmd (.hmget k fs) b).2 = b ∧
      (executeCmd (.sismember k v) b).2 = b ∧
      (executeCmd (.smembers k) b).2 = b ∧
      (executeCmd .unrecognized b).2 = b := by
  intro b m k f fs v srt
  refine ⟨rfl, rfl, rfl, ?_, ?_, ?_, ?_, rfl⟩
  · show (match b.hgetall k with
      | none => ((.array [] : RespFrame), b)
      | some all =>
        (.array (flattenPairs (if srt then sortPairs all else all)), b)).2 = b
    cases b.hgetall k <;> rfl
  · show (match b.hgetall k with
      | none => ((.array (fs.map (fun _ => RespFrame.null)) : RespFrame), b)
      | some all =>
        (.array (fs.map (fun f => (alookup all f).getD .null)), b)).2 = b
    cases b.hgetall k <;> rfl
  · show (match alookup b.smap k with
      | none => ((.integer 0 : RespFrame), b)
      | some entry =>
        (.integer (if isMember entry v then 1 else 0), b)).2 = b
    cases alookup b.smap k <;> rfl
  · show (match alookup b.smap k with
      | none => ((.array [] : RespFrame), b)
      | some entry => ((.array entry : RespFrame), b)).2 = b
    cases alookup b.smap k <;> rfl

end SimpleRedis
